/-
Verification of the MECE validation / convergence core of the
strategic_consultant_agent repository.

The Python modules embedded here:
  - tools/mece_validator.py      (validate_mece_structure, validate_l2_branches,
                                  validate_l3_leaves and their helper checks)
  - tools/validation_memory.py   (ValidationMemory)
  - tools/llm_tree_generators.py (_cleanup_label and the two
                                  *_with_validation regeneration loops)

Python dictionaries are modelled as association lists in insertion order
(assignment replaces the value in place when the key exists, otherwise
appends).  Python strings are Lean strings; `x in s` is substring search,
`str.split()` splits on whitespace runs, `str.lower()` maps ASCII case.
The external LLM generators are opaque parameters of the loop models.
-/
import Mathlib

set_option maxHeartbeats 1000000

/-! ## Definitions: the embedded data model and operations -/

/-- Lookup in a Python-dict model: first binding of the key, if any. -/
def dictGet {α : Type} : List (String × α) → String → Option α
  | [], _ => none
  | (k₁, v) :: d, k => if k₁ = k then some v else dictGet d k

/-- Membership test, Python `key in dict`. -/
def containsKey {α : Type} : List (String × α) → String → Bool
  | [], _ => false
  | (k₁, _) :: d, k => k₁ = k || containsKey d k

/-- Replace the value stored at every binding of `k` (Python dicts hold at
most one binding, where this is `d[k] = f(d[k])`). -/
def dictModify {α : Type} : List (String × α) → String → (α → α) → List (String × α)
  | [], _, _ => []
  | (k₁, v) :: d, k, f =>
      if k₁ = k then (k₁, f v) :: dictModify d k f else (k₁, v) :: dictModify d k f

/-- Python dict assignment `d[k] = v`: replace in place when present,
append otherwise. -/
def dictInsert {α : Type} (d : List (String × α)) (k : String) (v : α) :
    List (String × α) :=
  if containsKey d k then dictModify d k (fun _ => v) else d ++ [(k, v)]

/-- Python `str.lower()` (ASCII case mapping). -/
def pyLower (s : String) : String := String.mk (s.data.map Char.toLower)

/-- Python `str.upper()` (ASCII case mapping). -/
def pyUpper (s : String) : String := String.mk (s.data.map Char.toUpper)

/-- Python `str.capitalize()`: first character uppercased, rest lowercased. -/
def pyCapitalize (s : String) : String :=
  match s.data with
  | [] => ""
  | c :: cs => String.mk (Char.toUpper c :: cs.map Char.toLower)

/-- Python substring test `pat in s`. -/
def containsSub (s pat : String) : Bool :=
  (List.range (s.data.length + 1)).any fun i => pat.data.isPrefixOf (s.data.drop i)

/-- Emit the word accumulated (in reverse) so far, if any. -/
def flushAcc (acc : List Char) : List (List Char) :=
  if acc.isEmpty then [] else [acc.reverse]

/-- Accumulator pass splitting a character list on whitespace runs and
dropping empty pieces. -/
def wordsAux : List Char → List Char → List (List Char)
  | [], acc => flushAcc acc
  | c :: cs, acc =>
    if c.isWhitespace then flushAcc acc ++ wordsAux cs []
    else wordsAux cs (c :: acc)

/-- Split a character list on whitespace runs, dropping empty pieces
(Python `str.split()` with no argument). -/
def wordsCL (cs : List Char) : List (List Char) := wordsAux cs []

/-- Python `str.split()`. -/
def pyWords (s : String) : List String := (wordsCL s.data).map String.mk

/-- Characters of `" ".flatten(parts)`. -/
def joinSpCL : List (List Char) → List Char
  | [] => []
  | [w] => w
  | w :: rest => w ++ ' ' :: joinSpCL rest

/-- Python `" ".flatten(parts)`. -/
def joinSp (parts : List String) : String := String.mk (joinSpCL (parts.map String.data))

/-- Characters of `"\n".flatten(parts)`. -/
def joinNLCL : List (List Char) → List Char
  | [] => []
  | [w] => w
  | w :: rest => w ++ '\n' :: joinNLCL rest

/-- Python `"\n".flatten(parts)`. -/
def joinNL (parts : List String) : String := String.mk (joinNLCL (parts.map String.data))

/-- Python `str.strip()`: drop whitespace from both ends. -/
def pyStrip (s : String) : String :=
  String.mk ((((s.data.dropWhile Char.isWhitespace).reverse.dropWhile
      Char.isWhitespace)).reverse)

/-- Python `", ".flatten(items)` used when rendering lists and sets. -/
def joinCommaSp : List String → String
  | [] => ""
  | [w] => w
  | w :: rest => w ++ ", " ++ joinCommaSp rest

/-- Rendering of a Python list of strings, e.g. `['label', 'target']`. -/
def renderStrList (items : List String) : String :=
  "[" ++ joinCommaSp (items.map fun w => "\x27" ++ w ++ "\x27") ++ "]"

/-- Rendering of a Python set of strings, e.g. `{'cost', 'roi'}`.  CPython
iterates a set in unspecified (hash) order; this model renders the elements
in the deterministic order our set model stores them.  No claim below
depends on the rendered order. -/
def renderStrSet (items : List String) : String :=
  "\x7b" ++ joinCommaSp (items.map fun w => "\x27" ++ w ++ "\x27") ++ "\x7d"

/-- Model of a Python word set `set(label.split()) - stop`: deduplicated
split tokens with the stop words removed.  `List.dedup` keeps the last
occurrence of each duplicate; the choice of representative order is
immaterial because only membership and cardinality are consumed. -/
def tokenSet (label : String) (stop : List String) : List String :=
  (pyWords label).dedup.filter fun w => ¬ stop.contains w

/-- Size of the intersection of two Python word sets, together with the
intersection itself in our canonical order. -/
def commonTokens (a b : List String) : List String := a.filter fun w => b.contains w

/-- An L3 leaf: a Python dict of string fields (label, question, metric_type,
target, data_source, ...). -/
abbrev Leaf := List (String × String)

/-- An L2 branch node: optional "label"/"question" keys and the "L3" child
dict (an absent "L3" key behaves like an empty dict everywhere). -/
structure L2Node where
  label : Option String
  question : Option String
  L3 : List (String × Leaf)
deriving DecidableEq

/-- An L1 category node: optional "label" key and the "L2" child dict. -/
structure L1Node where
  label : Option String
  L2 : List (String × L2Node)
deriving DecidableEq

/-- A hypothesis tree: the top-level dict of L1 categories. -/
abbrev HTree := List (String × L1Node)

/-- Argument of `validate_mece_structure`: `structure.get("tree", {})` and
`structure.get("problem", "")`. -/
structure MStructure where
  tree : HTree
  problem : String

/-- Known semantic-overlap patterns (`overlap_keywords`). -/
def overlap_keywords : List (String × List String) :=
  [("cost", ["financial", "budget", "savings", "roi"]),
   ("financial", ["cost", "revenue", "budget"]),
   ("risk", ["regulatory", "compliance", "legal"]),
   ("technical", ["system", "infrastructure", "capability"]),
   ("operational", ["process", "workflow", "capability"]),]

/-- Allowlisted valid L1 structures (`valid_patterns`); a Python set of
tuples, membership-only, so list order is immaterial. -/
def valid_patterns : List (List String) :=
  [["desirability", "feasibility", "viability"],
   ["strategic", "operational", "external"],
   ["hypothesis", "hypothesis", "hypothesis"],
   ["primary", "alternative", "tertiary"]]

/-- Stop words ignored in the L1 direct keyword comparison. -/
def l1StopWords : List String := ["risk", "risks", "hypothesis", "the", "and", "or"]

/-- Stop words ignored in the L2 keyword comparison. -/
def l2StopWords : List String := ["the", "and", "or", "of", "to", "in", "for"]

/-- Stop words ignored in the L3 keyword comparison. -/
def l3StopWords : List String := ["the", "and", "or", "of", "to", "in", "for", "by"]

/-- Critical dimensions and their trigger words (`critical_dimensions`). -/
def critical_dimensions : List (String × List String) :=
  [("regulatory", ["healthcare", "medical", "pharma", "compliance"]),
   ("competitive", ["market", "launch", "entry", "competitive"]),
   ("customer", ["product", "service", "user", "customer"]),
   ("technology", ["technical", "system", "digital", "infrastructure"]),
   ("financial", ["investment", "budget", "financial", "cost"])]

/-- L1 strategic keywords (a Python set; only `any` membership is used). -/
def strategic_keywords : List String :=
  ["desirability", "feasibility", "viability", "strategic", "market",
   "competitive", "execution"]

/-- L1 tactical keywords. -/
def tactical_keywords : List String :=
  ["testing", "deployment", "implementation", "specific", "detailed"]

/-- L2 strategic indicators. -/
def strategic_indicators : List String :=
  ["strategy", "approach", "model", "framework", "structure"]

/-- L2 tactical indicators. -/
def tactical_indicators : List String :=
  ["task", "action", "step", "activity", "process"]

/-- L3 abstract indicators. -/
def abstract_indicators : List String :=
  ["overall", "general", "broad", "strategic", "high-level"]

/-- Required fields of every L3 leaf. -/
def required_fields : List String :=
  ["label", "question", "metric_type", "target", "data_source"]

/-- Lowercased display label of an L1 entry: `tree[key].get("label", key).lower()`. -/
def l1LabelLower (k : String) (n : L1Node) : String := pyLower (n.label.getD k)

/-- Messages contributed by one ordered L1 pair: the direct shared-keyword
check followed by the semantic-map checks, in table order.  The Python
f-string reads `tree[key]['label']` for the message text (a `KeyError` if
the label key were absent, which callers never produce); we render the
same `.get` default. -/
def l1PairMsg (ka : String) (na : L1Node) (kb : String) (nb : L1Node) : List String :=
  let la := l1LabelLower ka na
  let lb := l1LabelLower kb nb
  let words_a := tokenSet la l1StopWords
  let words_b := tokenSet lb l1StopWords
  let common_words := commonTokens words_a words_b
  let direct :=
    if common_words.length > 1 then
      ["L1 categories \x27" ++ (na.label.getD ka) ++ "\x27 and \x27" ++
       (nb.label.getD kb) ++ "\x27 may overlap (shared keywords: " ++
       renderStrSet common_words ++ ")"]
    else []
  let semantic :=
    (overlap_keywords.map fun bw =>
      if containsSub la bw.1 && bw.2.any (fun w => containsSub lb w) then
        ["L1 categories \x27" ++ (na.label.getD ka) ++ "\x27 and \x27" ++
         (nb.label.getD kb) ++ "\x27 may have semantic overlap"]
      else []).flatten
  direct ++ semantic

/-- The `for i, a in enumerate(keys): for b in keys[i+1:]` double loop. -/
def l1PairLoop : List (String × L1Node) → List String
  | [] => []
  | (ka, na) :: rest =>
      (rest.map fun q => l1PairMsg ka na q.1 q.2).flatten ++ l1PairLoop rest

/-- Check for overlaps between L1 categories (`_check_l1_overlaps`). -/
def _check_l1_overlaps (tree : HTree) : List String :=
  let l1_labels := tree.map fun p => l1LabelLower p.1 p.2
  if valid_patterns.any (fun pattern =>
      l1_labels.all fun label => pattern.any fun p => containsSub label p) then
    []
  else l1PairLoop tree

/-- Check for potential gaps in L1 coverage (`_check_l1_gaps`). -/
def _check_l1_gaps (tree : HTree) (problem : String) : List String :=
  let l1_labels := tree.map fun p => pyLower (p.2.label.getD "")
  let combined_labels := joinSp l1_labels
  let problem_lower := pyLower problem
  (critical_dimensions.map fun dt =>
    if dt.2.any (fun w => containsSub problem_lower w) &&
       !(containsSub combined_labels dt.1) then
      ["Consider adding \x27" ++ pyCapitalize dt.1 ++
       "\x27 dimension - problem context suggests it may be relevant"]
    else []).flatten

/-- Check level consistency of the L1 categories (`_check_level_consistency`). -/
def _check_level_consistency (tree : HTree) : List String :=
  let l1_labels := tree.map fun p => pyLower (p.2.label.getD "")
  let has_strategic := l1_labels.any fun label =>
    strategic_keywords.any fun w => containsSub label w
  let has_tactical := l1_labels.any fun label =>
    tactical_keywords.any fun w => containsSub label w
  (if has_strategic && has_tactical then
    ["L1 categories mix strategic and tactical levels - " ++
     "consider keeping all at strategic level"]
   else []) ++
  (if tree.length > 6 then
    ["L1 has " ++ toString tree.length ++ " categories - " ++
     "consider consolidating for better comprehension (recommend 3-5)"]
   else [])

/-- Issue lists shared by the topic- and branch-level results. -/
structure TopicIssues where
  overlaps : List String
  level_inconsistencies : List String
deriving DecidableEq

/-- Return value of `validate_mece_structure`. -/
structure TopicResult where
  is_mece : Bool
  issues : TopicIssues
  warnings : List String
  suggestions : List String
deriving DecidableEq

/-- Validate a hierarchical structure for MECE compliance
(`validate_mece_structure`). -/
def validate_mece_structure (s : MStructure) : TopicResult :=
  let overlaps := _check_l1_overlaps s.tree
  let gaps := _check_l1_gaps s.tree s.problem
  let level_issues := _check_level_consistency s.tree
  let suggestions :=
    (if overlaps.isEmpty then [] else
      ["Clarify boundaries between overlapping categories to ensure mutual exclusivity"]) ++
    (if gaps.isEmpty then [] else
      ["Consider adding missing dimensions to ensure comprehensive coverage"]) ++
    (if level_issues.isEmpty then [] else
      ["Ensure all categories at the same level are at similar levels of abstraction"])
  let is_mece := overlaps.isEmpty && level_issues.isEmpty
  { is_mece := is_mece,
    issues := { overlaps := overlaps, level_inconsistencies := level_issues },
    warnings := gaps,
    suggestions := if is_mece then ["Structure passes MECE validation"] else suggestions }

/-- Return value of `validate_l2_branches`. -/
structure L2Result where
  is_mece : Bool
  level : String
  component : String
  issues : TopicIssues
deriving DecidableEq

/-- Lowercased display label of an L2 entry: `branches[key].get("label", key).lower()`. -/
def l2LabelLower (k : String) (n : L2Node) : String := pyLower (n.label.getD k)

/-- Messages contributed by one ordered L2 pair (keyword overlap only; the
semantic map of `_check_l1_overlaps` is not consulted here). -/
def l2PairMsg (ka : String) (na : L2Node) (kb : String) (nb : L2Node) : List String :=
  let la := l2LabelLower ka na
  let lb := l2LabelLower kb nb
  let words_a := tokenSet la l2StopWords
  let words_b := tokenSet lb l2StopWords
  let common_words := commonTokens words_a words_b
  if common_words.length > 1 then
    ["L2 branches \x27" ++ (na.label.getD ka) ++ "\x27 and \x27" ++
     (nb.label.getD kb) ++ "\x27 may overlap (shared keywords: " ++
     renderStrSet common_words ++ ")"]
  else []

/-- The ordered-pair double loop over L2 branches. -/
def l2PairLoop : List (String × L2Node) → List String
  | [] => []
  | (ka, na) :: rest =>
      (rest.map fun q => l2PairMsg ka na q.1 q.2).flatten ++ l2PairLoop rest

/-- Body of `validate_l2_branches` once the L1 category was resolved:
everything after `l2_branches = l1_data.get("L2", {})`. -/
def l2BranchesVerdict (l1_key : String) (l2_branches : List (String × L2Node)) :
    L2Result :=
  if l2_branches.isEmpty then
    { is_mece := false, level := "L2", component := l1_key,
      issues := { overlaps := [],
                  level_inconsistencies := ["No L2 branches found"] } }
  else
    let overlaps := l2PairLoop l2_branches
    let l2_labels := l2_branches.map fun p => pyLower (p.2.label.getD "")
    let has_strategic := l2_labels.any fun label =>
      strategic_indicators.any fun ind => containsSub label ind
    let has_tactical := l2_labels.any fun label =>
      tactical_indicators.any fun ind => containsSub label ind
    let level_inconsistencies :=
      (if has_strategic && has_tactical then
        ["L2 branches in " ++ l1_key ++ " mix strategic and tactical levels"]
       else []) ++
      (if l2_branches.length > 7 then
        ["L2 in " ++ l1_key ++ " has " ++ toString l2_branches.length ++
         " branches - recommend 3-7 for clarity"]
       else [])
    { is_mece := overlaps.isEmpty && level_inconsistencies.isEmpty,
      level := "L2", component := l1_key,
      issues := { overlaps := overlaps,
                  level_inconsistencies := level_inconsistencies } }

/-- Validate L2 branches within a specific L1 category (`validate_l2_branches`). -/
def validate_l2_branches (tree : HTree) (l1_key : String) : L2Result :=
  match dictGet tree l1_key with
  | none =>
      { is_mece := false, level := "L2", component := l1_key,
        issues := { overlaps := ["L1 category " ++ l1_key ++ " not found"],
                    level_inconsistencies := [] } }
  | some l1_data => l2BranchesVerdict l1_key l1_data.L2

/-- Issue lists of the leaf-level result. -/
structure L3Issues where
  overlaps : List String
  level_inconsistencies : List String
  missing_fields : List String
deriving DecidableEq

/-- Return value of `validate_l3_leaves`. -/
structure L3Result where
  is_mece : Bool
  level : String
  component : String
  issues : L3Issues
deriving DecidableEq

/-- Lowercased display label of an L3 leaf: `leaves[key].get("label", key).lower()`. -/
def l3LabelLower (k : String) (leaf : Leaf) : String :=
  pyLower ((dictGet leaf "label").getD k)

/-- Messages contributed by one ordered L3 pair (keyword overlap only). -/
def l3PairMsg (ka : String) (na : Leaf) (kb : String) (nb : Leaf) : List String :=
  let la := l3LabelLower ka na
  let lb := l3LabelLower kb nb
  let words_a := tokenSet la l3StopWords
  let words_b := tokenSet lb l3StopWords
  let common_words := commonTokens words_a words_b
  if common_words.length > 1 then
    ["L3 leaves \x27" ++ ((dictGet na "label").getD ka) ++ "\x27 and \x27" ++
     ((dictGet nb "label").getD kb) ++ "\x27 may overlap (shared keywords: " ++
     renderStrSet common_words ++ ")"]
  else []

/-- The ordered-pair double loop over L3 leaves. -/
def l3PairLoop : List (String × Leaf) → List String
  | [] => []
  | (ka, na) :: rest =>
      (rest.map fun q => l3PairMsg ka na q.1 q.2).flatten ++ l3PairLoop rest

/-- Required fields absent or empty in one leaf, in `required_fields` order
(`field not in l3_data or not l3_data[field]`; a string field is falsy
exactly when it is empty). -/
def leafMissingFields (leaf : Leaf) : List String :=
  required_fields.filter fun f => (dictGet leaf f).getD "" = ""

/-- Body of `validate_l3_leaves` once both parent scopes were resolved:
everything after `l3_leaves = l2_branches[l2_key].get("L3", {})`. -/
def l3LeavesVerdict (l1_key l2_key : String) (l3_leaves : List (String × Leaf)) :
    L3Result :=
  if l3_leaves.isEmpty then
    { is_mece := false, level := "L3", component := l1_key ++ "." ++ l2_key,
      issues := { overlaps := [],
                  level_inconsistencies := ["No L3 leaves found"],
                  missing_fields := [] } }
  else
    let overlaps := l3PairLoop l3_leaves
    let missing_fields :=
      (l3_leaves.map fun p =>
        let missing := leafMissingFields p.2
        if missing.isEmpty then []
        else ["L3 leaf \x27" ++ ((dictGet p.2 "label").getD p.1) ++
              "\x27 missing required fields: " ++ renderStrList missing]).flatten
    let l3_labels := l3_leaves.map fun p => pyLower ((dictGet p.2 "label").getD "")
    let has_abstract := l3_labels.any fun label =>
      abstract_indicators.any fun ind => containsSub label ind
    let level_inconsistencies :=
      (if has_abstract then
        ["L3 leaves in " ++ l1_key ++ "." ++ l2_key ++
         " should be specific/measurable, not abstract"]
       else []) ++
      (if l3_leaves.length > 7 then
        ["L3 in " ++ l1_key ++ "." ++ l2_key ++ " has " ++
         toString l3_leaves.length ++ " leaves - recommend 3-7 for clarity"]
       else [])
    { is_mece := overlaps.isEmpty && level_inconsistencies.isEmpty &&
                 missing_fields.isEmpty,
      level := "L3", component := l1_key ++ "." ++ l2_key,
      issues := { overlaps := overlaps,
                  level_inconsistencies := level_inconsistencies,
                  missing_fields := missing_fields } }

/-- Validate L3 leaves within a specific L2 branch (`validate_l3_leaves`). -/
def validate_l3_leaves (tree : HTree) (l1_key l2_key : String) : L3Result :=
  match dictGet tree l1_key with
  | none =>
      { is_mece := false, level := "L3", component := l1_key ++ "." ++ l2_key,
        issues := { overlaps := ["L1 category " ++ l1_key ++ " not found"],
                    level_inconsistencies := [], missing_fields := [] } }
  | some l1_data =>
    match dictGet l1_data.L2 l2_key with
    | none =>
        { is_mece := false, level := "L3", component := l1_key ++ "." ++ l2_key,
          issues := { overlaps := ["L2 branch " ++ l2_key ++ " not found in " ++
                                   l1_key],
                      level_inconsistencies := [], missing_fields := [] } }
    | some branch => l3LeavesVerdict l1_key l2_key branch.L3

/-- One entry of `ValidationMemory.failures`.  `record_failure` reads
`issues.overlaps` and `issues.level_inconsistencies` out of the validation
result dict; the timestamp is `datetime.now().isoformat()`, an arbitrary
string supplied by the clock. -/
structure FailureRecord where
  timestamp : String
  iteration : Nat
  level : String
  component : String
  overlaps : List String
  inconsistencies : List String
deriving DecidableEq

/-- The memory object: a chronological list of failure records. -/
structure ValidationMemory where
  failures : List FailureRecord
deriving DecidableEq

/-- Record a validation failure (`ValidationMemory.record_failure`).  The
Python method receives the whole validation-result dict and extracts
`issues.overlaps` / `issues.level_inconsistencies`; callers here pass those
two lists, and `timestamp` stands for the wall-clock reading. -/
def ValidationMemory.record_failure (m : ValidationMemory) (level component : String)
    (overlaps inconsistencies : List String) (iteration : Nat) (timestamp : String) :
    ValidationMemory :=
  { failures := m.failures ++
      [{ timestamp := timestamp, iteration := iteration, level := level,
         component := component, overlaps := overlaps,
         inconsistencies := inconsistencies }] }

/-- The record filter shared by `get_feedback_prompt` and
`get_failure_count`: `f["level"] == level and (component is None or
f["component"] == component)`. -/
def failureMatches (level : String) (component : Option String)
    (f : FailureRecord) : Bool :=
  f.level == level &&
    (match component with
     | none => true
     | some c => f.component == c)

/-- Count failures for a level/component (`ValidationMemory.get_failure_count`). -/
def ValidationMemory.get_failure_count (m : ValidationMemory) (level : String)
    (component : Option String) : Nat :=
  (m.failures.filter (failureMatches level component)).length

/-- The `"=" * 80` separator line. -/
def eq80 : String := String.mk (List.replicate 80 '=')

/-- The `"-" * 80` separator line. -/
def dash80 : String := String.mk (List.replicate 80 '-')

/-- Lines contributed by one failure record inside `get_feedback_prompt`. -/
def failureFeedbackParts (f : FailureRecord) : List String :=
  ["📍 Attempt " ++ toString f.iteration ++ ":", ""] ++
  (if f.overlaps.isEmpty then [] else
    ["  ❌ OVERLAPS DETECTED:"] ++
    (f.overlaps.map fun o => "     • " ++ o) ++
    ["", "  → FIX: Ensure each branch/leaf is MUTUALLY EXCLUSIVE",
     "     - Use different terminology that doesn\x27t overlap semantically",
     "     - Avoid synonyms (e.g., \x27Cost\x27 and \x27Financial\x27 overlap)",
     ""]) ++
  (if f.inconsistencies.isEmpty then [] else
    ["  ❌ LEVEL INCONSISTENCIES:"] ++
    (f.inconsistencies.map fun i => "     • " ++ i) ++
    ["", "  → FIX: Maintain CONSISTENT ABSTRACTION LEVEL",
     "     - All branches/leaves should be at similar specificity",
     "     - Don\x27t mix strategic and tactical items",
     ""]) ++
  [dash80, ""]

/-- Format failures into actionable feedback
(`ValidationMemory.get_feedback_prompt`). -/
def ValidationMemory.get_feedback_prompt (m : ValidationMemory) (level : String)
    (component : Option String) : String :=
  let relevant_failures := m.failures.filter (failureMatches level component)
  if relevant_failures.isEmpty then ""
  else
    joinNL
      (["", eq80,
        "⚠️  PREVIOUS GENERATION ATTEMPTS FAILED - Learn from these mistakes:",
        eq80, ""] ++
       (relevant_failures.map failureFeedbackParts).flatten ++
       ["🎯 KEY INSTRUCTION:",
        "   DO NOT repeat the exact same mistakes from previous attempts.",
        "   Generate DIFFERENT branches/leaves that avoid these specific issues.",
        eq80, ""])

/-- Reset the failure history (`ValidationMemory.clear`). -/
def ValidationMemory.clear (_ : ValidationMemory) : ValidationMemory :=
  { failures := [] }

/-- ASCII lowering of a character list. -/
def lowerCL (cs : List Char) : List Char := cs.map Char.toLower

/-- Case-insensitive prefix test used to model `re.IGNORECASE` matching of
an escaped (literal) pattern. -/
def isCIPrefix (pat cs : List Char) : Bool :=
  decide (pat.length ≤ cs.length) && (lowerCL (cs.take pat.length) == lowerCL pat)

/-- Fuelled scan of `re.sub(re.escape(pat), "", s, flags=re.IGNORECASE)`:
left to right, removing each non-overlapping case-insensitive occurrence.
The fuel (one unit per consumed character) only makes the recursion
structural; `fuel = cs.length` always suffices because every step consumes
at least one character of a non-empty pattern. -/
def ciRemoveAllFuel : Nat → List Char → List Char → List Char
  | 0, _, _ => []
  | _ + 1, _, [] => []
  | fuel + 1, pat, c :: cs =>
    if !pat.isEmpty && isCIPrefix pat (c :: cs) then
      ciRemoveAllFuel fuel pat ((c :: cs).drop pat.length)
    else c :: ciRemoveAllFuel fuel pat cs

/-- Remove every case-insensitive occurrence of a literal pattern. -/
def ciRemoveAll (pat cs : List Char) : List Char := ciRemoveAllFuel cs.length pat cs

/-- The `verbose_patterns` table (all replacements are the empty string). -/
def verbose_patterns : List String :=
  ["Improvement in ", "Reduction in ", "Enhancement of ", "Assessment of ",
   "Evaluation of ", "Analysis of ",
   " with Computer Vision", " Requiring Medical Intervention",
   " Due to Fall Response", " from Direct Incident Response",
   " Based on Real-time Needs",
   " and Scalability Potential", " and Accuracy"]

/-- The pattern-removal loop of `_cleanup_label`. -/
def applyVerbosePatterns (label : String) : String :=
  verbose_patterns.foldl
    (fun cleaned pat => String.mk (ciRemoveAll pat.data cleaned.data)) label

/-- Test for the trailing words stripped by `_cleanup_label`. -/
def isConnWord (w : String) : Bool := ["and", "or", "&"].contains (pyLower w)

/-- Python `words and words[-1].lower() in ["and", "or", "&"]`. -/
def lastIsConn (words : List String) : Bool :=
  match words.getLast? with
  | some w => isConnWord w
  | none => false

/-- Clean up an LLM-generated label (`_cleanup_label`). -/
def _cleanup_label (label : String) (max_words : Nat) : String :=
  let cleaned := applyVerbosePatterns label
  let words := pyWords cleaned
  let cleaned := if words.length > max_words then joinSp (words.take max_words)
                 else cleaned
  let words := pyWords cleaned
  let cleaned := if lastIsConn words then joinSp words.dropLast else cleaned
  pyStrip (joinSp (pyWords cleaned))

/-- Entry of the framework template handed to the L2 batch generator; only
its "label" key is read by the loop itself. -/
structure FWNode where
  label : Option String
deriving DecidableEq

/-- State of `generate_entire_tree_l2_branches_batch_with_validation`. -/
structure L2LoopState where
  l2_branches : List (String × List (String × L2Node))
  temp_tree : HTree
  l1_results : List (String × L2Result)
  attempts : List (String × Nat)
  memory : ValidationMemory
  failed_l1_keys : List String
  oracle_calls : List (String × Nat)

/-- The temporary tree built for validation from the framework structure and
the generated branches (the `temp_tree` construction loop). -/
def buildTempTreeL2 (fw : List (String × FWNode))
    (l2_branches : List (String × List (String × L2Node))) : HTree :=
  fw.foldl
    (fun acc p =>
      dictInsert acc p.1
        { label := some (p.2.label.getD p.1),
          L2 := ((dictGet l2_branches p.1).getD []).foldl
                  (fun l2acc q => dictInsert l2acc q.1 q.2) [] })
    []

/-- One step of the initial validation scan over the L1 keys. -/
def l2InitStep (ts : String) (st : L2LoopState) (l1_key : String) : L2LoopState :=
  let v := validate_l2_branches st.temp_tree l1_key
  { l2_branches := st.l2_branches,
    temp_tree := st.temp_tree,
    l1_results := dictInsert st.l1_results l1_key v,
    attempts := dictInsert st.attempts l1_key 1,
    memory := if v.is_mece then st.memory
              else st.memory.record_failure "L2" l1_key v.issues.overlaps
                     v.issues.level_inconsistencies 1 ts,
    failed_l1_keys := if v.is_mece then st.failed_l1_keys
                      else st.failed_l1_keys ++ [l1_key],
    oracle_calls := st.oracle_calls }

/-- State after the initial batched generation and validation scan. -/
def l2LoopInit (fw : List (String × FWNode))
    (initGen : List (String × List (String × L2Node))) (ts : String) : L2LoopState :=
  (fw.map Prod.fst).foldl (l2InitStep ts)
    { l2_branches := initGen,
      temp_tree := buildTempTreeL2 fw initGen,
      l1_results := [],
      attempts := [],
      memory := { failures := [] },
      failed_l1_keys := [],
      oracle_calls := fw.map fun p => (p.1, 1) }

/-- Body of the regeneration loop for one failed L1 key. -/
def l2ProcessScope (regen : String → String → List (String × L2Node))
    (attempt : Nat) (ts : String) (st : L2LoopState) (l1_key : String) :
    L2LoopState :=
  let feedback := st.memory.get_feedback_prompt "L2" (some l1_key)
  let regenerated_l2 := regen l1_key feedback
  let temp_tree := dictModify st.temp_tree l1_key
    fun n => { n with L2 := regenerated_l2 }
  let v := validate_l2_branches temp_tree l1_key
  { l2_branches := dictInsert st.l2_branches l1_key regenerated_l2,
    temp_tree := temp_tree,
    l1_results := dictInsert st.l1_results l1_key v,
    attempts := dictInsert st.attempts l1_key attempt,
    memory := if v.is_mece then st.memory
              else st.memory.record_failure "L2" l1_key v.issues.overlaps
                     v.issues.level_inconsistencies attempt ts,
    failed_l1_keys := if v.is_mece then st.failed_l1_keys.erase l1_key
                      else st.failed_l1_keys,
    oracle_calls := dictInsert st.oracle_calls l1_key
      (((dictGet st.oracle_calls l1_key).getD 0) + 1) }

/-- One round of the regeneration loop: iterate over a snapshot
(`failed_l1_keys[:]`) of the failing keys. -/
def l2RepairRound (regen : String → String → List (String × L2Node))
    (attempt : Nat) (ts : String) (st : L2LoopState) : L2LoopState :=
  st.failed_l1_keys.foldl (l2ProcessScope regen attempt ts) st

/-- The `while failed_l1_keys and attempt <= max_attempts` loop. -/
def l2RepairLoop (regen : String → String → List (String × L2Node))
    (ts : String) (max_attempts : Nat) (attempt : Nat) (st : L2LoopState) :
    L2LoopState :=
  if st.failed_l1_keys.isEmpty ∨ max_attempts < attempt then st
  else l2RepairLoop regen ts max_attempts (attempt + 1)
         (l2RepairRound regen attempt ts st)
termination_by max_attempts + 1 - attempt
decreasing_by omega

/-- Final loop state of the L2 batch generator. -/
def l2BatchFinalState (fw : List (String × FWNode))
    (initGen : List (String × List (String × L2Node)))
    (regen : String → String → List (String × L2Node)) (ts : String)
    (max_attempts : Nat) : L2LoopState :=
  l2RepairLoop regen ts max_attempts 2 (l2LoopInit fw initGen ts)

/-- The `validation_results` value returned by the L2 batch generator. -/
structure L2ValidationResults where
  all_passed : Bool
  l1_results : List (String × L2Result)
  attempts : List (String × Nat)

/-- Generate L2 branches with incremental MECE validation
(`generate_entire_tree_l2_branches_batch_with_validation`). -/
def generate_entire_tree_l2_branches_batch_with_validation
    (fw : List (String × FWNode))
    (initGen : List (String × List (String × L2Node)))
    (regen : String → String → List (String × L2Node)) (ts : String)
    (max_attempts : Nat) :
    (List (String × List (String × L2Node))) × L2ValidationResults :=
  let st := l2BatchFinalState fw initGen regen ts max_attempts
  (st.l2_branches,
   { all_passed := st.failed_l1_keys.isEmpty,
     l1_results := st.l1_results,
     attempts := st.attempts })

/-- Entry of `l1_data["L2_branches"]` as read by the L3 batch generator;
only its "label" key is consumed by the loop itself. -/
structure BranchTpl where
  label : Option String
deriving DecidableEq

/-- The `l1_data` template handed to `generate_l1_category_batch_with_validation`. -/
structure L1Tpl where
  label : Option String
  L2_branches : List (String × BranchTpl)
deriving DecidableEq

/-- Leaf key derivation: `f"L3_{leaf.get('label', '').upper().replace(' ', '_')}"`. -/
def leafKey (leaf : Leaf) : String :=
  "L3_" ++ String.mk (((dictGet leaf "label").getD "").data.map fun c =>
    if Char.toUpper c = ' ' then '_' else Char.toUpper c)

/-- Insert a generated leaf list into a fresh `"L3"` dict, keyed by `leafKey`. -/
def buildL3 (leaves : List Leaf) : List (String × Leaf) :=
  leaves.foldl (fun acc leaf => dictInsert acc (leafKey leaf) leaf) []

/-- The temporary one-topic tree built for L3 validation. -/
def buildTempTreeL3 (l1_key : String) (l1_data : L1Tpl)
    (l3_leaves : List (String × List Leaf)) : HTree :=
  [(l1_key,
    { label := some (l1_data.label.getD l1_key),
      L2 := l1_data.L2_branches.foldl
        (fun acc p =>
          dictInsert acc p.1
            { label := some (p.2.label.getD p.1), question := none,
              L3 := buildL3 ((dictGet l3_leaves p.1).getD []) })
        [] })]

/-- State of `generate_l1_category_batch_with_validation`. -/
structure L3LoopState where
  l3_leaves : List (String × List Leaf)
  temp_tree : HTree
  l2_results : List (String × L3Result)
  attempts : List (String × Nat)
  memory : ValidationMemory
  failed_l2_keys : List String
  oracle_calls : List (String × Nat)

/-- One step of the initial validation scan over the L2 keys. -/
def l3InitStep (l1_key : String) (ts : String) (st : L3LoopState)
    (l2_key : String) : L3LoopState :=
  let v := validate_l3_leaves st.temp_tree l1_key l2_key
  { l3_leaves := st.l3_leaves,
    temp_tree := st.temp_tree,
    l2_results := dictInsert st.l2_results l2_key v,
    attempts := dictInsert st.attempts l2_key 1,
    memory := if v.is_mece then st.memory
              else st.memory.record_failure "L3" (l1_key ++ "." ++ l2_key)
                     v.issues.overlaps v.issues.level_inconsistencies 1 ts,
    failed_l2_keys := if v.is_mece then st.failed_l2_keys
                      else st.failed_l2_keys ++ [l2_key],
    oracle_calls := st.oracle_calls }

/-- State after the initial batched L3 generation and validation scan. -/
def l3LoopInit (l1_key : String) (l1_data : L1Tpl)
    (initGen : List (String × List Leaf)) (ts : String) : L3LoopState :=
  (l1_data.L2_branches.map Prod.fst).foldl (l3InitStep l1_key ts)
    { l3_leaves := initGen,
      temp_tree := buildTempTreeL3 l1_key l1_data initGen,
      l2_results := [],
      attempts := [],
      memory := { failures := [] },
      failed_l2_keys := [],
      oracle_calls := l1_data.L2_branches.map fun p => (p.1, 1) }

/-- Body of the regeneration loop for one failed L2 key. -/
def l3ProcessScope (l1_key : String) (regen : String → String → List Leaf)
    (attempt : Nat) (ts : String) (st : L3LoopState) (l2_key : String) :
    L3LoopState :=
  let feedback := st.memory.get_feedback_prompt "L3" (some (l1_key ++ "." ++ l2_key))
  let regenerated_l3 := regen l2_key feedback
  let temp_tree := dictModify st.temp_tree l1_key fun n =>
    { n with L2 := dictModify n.L2 l2_key fun b =>
        { b with L3 := buildL3 regenerated_l3 } }
  let v := validate_l3_leaves temp_tree l1_key l2_key
  { l3_leaves := dictInsert st.l3_leaves l2_key regenerated_l3,
    temp_tree := temp_tree,
    l2_results := dictInsert st.l2_results l2_key v,
    attempts := dictInsert st.attempts l2_key attempt,
    memory := if v.is_mece then st.memory
              else st.memory.record_failure "L3" (l1_key ++ "." ++ l2_key)
                     v.issues.overlaps v.issues.level_inconsistencies attempt ts,
    failed_l2_keys := if v.is_mece then st.failed_l2_keys.erase l2_key
                      else st.failed_l2_keys,
    oracle_calls := dictInsert st.oracle_calls l2_key
      (((dictGet st.oracle_calls l2_key).getD 0) + 1) }

/-- One round of the L3 regeneration loop over a snapshot of the failing keys. -/
def l3RepairRound (l1_key : String) (regen : String → String → List Leaf)
    (attempt : Nat) (ts : String) (st : L3LoopState) : L3LoopState :=
  st.failed_l2_keys.foldl (l3ProcessScope l1_key regen attempt ts) st

/-- The `while failed_l2_keys and attempt <= max_attempts` loop. -/
def l3RepairLoop (l1_key : String) (regen : String → String → List Leaf)
    (ts : String) (max_attempts : Nat) (attempt : Nat) (st : L3LoopState) :
    L3LoopState :=
  if st.failed_l2_keys.isEmpty ∨ max_attempts < attempt then st
  else l3RepairLoop l1_key regen ts max_attempts (attempt + 1)
         (l3RepairRound l1_key regen attempt ts st)
termination_by max_attempts + 1 - attempt
decreasing_by omega

/-- Final loop state of the L3 batch generator. -/
def l3BatchFinalState (l1_key : String) (l1_data : L1Tpl)
    (initGen : List (String × List Leaf)) (regen : String → String → List Leaf)
    (ts : String) (max_attempts : Nat) : L3LoopState :=
  l3RepairLoop l1_key regen ts max_attempts 2 (l3LoopInit l1_key l1_data initGen ts)

/-- The `validation_results` value returned by the L3 batch generator. -/
structure L3ValidationResults where
  all_passed : Bool
  l2_results : List (String × L3Result)
  attempts : List (String × Nat)

/-- Generate L3 leaves for one L1 category with incremental MECE validation
(`generate_l1_category_batch_with_validation`). -/
def generate_l1_category_batch_with_validation (l1_key : String) (l1_data : L1Tpl)
    (initGen : List (String × List Leaf)) (regen : String → String → List Leaf)
    (ts : String) (max_attempts : Nat) :
    (List (String × List Leaf)) × L3ValidationResults :=
  let st := l3BatchFinalState l1_key l1_data initGen regen ts max_attempts
  (st.l3_leaves,
   { all_passed := st.failed_l2_keys.isEmpty,
     l2_results := st.l2_results,
     attempts := st.attempts })

/-- Topic set with the semantically overlapping pair of the spec. -/
def costFinancialStructure : MStructure :=
  { tree := [("COST", { label := some "Cost Analysis", L2 := [] }),
             ("FINANCIAL", { label := some "Financial Impact", L2 := [] })],
    problem := "Test" }

/-- The protected desirability/feasibility/viability topic set. -/
def dfvStructure : MStructure :=
  { tree := [("DESIRABILITY", { label := some "Desirability", L2 := [] }),
             ("FEASIBILITY", { label := some "Feasibility", L2 := [] }),
             ("VIABILITY", { label := some "Viability", L2 := [] })],
    problem := "Test" }

/-- Structure whose only finding is a coverage Gap (no overlaps, no level
inconsistencies, problem text triggers the competitive dimension). -/
def gapOnlyStructure : MStructure :=
  { tree := [("K1", { label := some "Alpha", L2 := [] })],
    problem := "market entry plan" }

/-- Tree whose single L1 category holds the semantically related branch
pair "Cost Analysis" / "Financial Impact" at the L2 level. -/
def costFinancialL2Tree : HTree :=
  [("L1_TEST",
    { label := some "Test",
      L2 := [("L2_COST", { label := some "Cost Analysis", question := none, L3 := [] }),
             ("L2_FIN", { label := some "Financial Impact", question := none, L3 := [] })] })]

/-- One-topic tree holding the semantically related leaf pair at L3. -/
def costFinancialL3Tree : HTree :=
  [("L1_T",
    { label := some "Topic",
      L2 := [("L2_T",
        { label := some "Branch", question := none,
          L3 := [("LEAF_A", [("label", "Cost Analysis")]),
                 ("LEAF_B", [("label", "Financial Impact")])] })] })]

/-- Relation bounding the shared-token count of an ordered L2 sibling pair. -/
def l2TokenDisjoint (a b : String × L2Node) : Prop :=
  (commonTokens (tokenSet (l2LabelLower a.1 a.2) l2StopWords)
    (tokenSet (l2LabelLower b.1 b.2) l2StopWords)).length ≤ 1

/-- Relation bounding the shared-token count of an ordered L3 sibling pair. -/
def l3TokenDisjoint (a b : String × Leaf) : Prop :=
  (commonTokens (tokenSet (l3LabelLower a.1 a.2) l3StopWords)
    (tokenSet (l3LabelLower b.1 b.2) l3StopWords)).length ≤ 1

instance (a b : String × L2Node) : Decidable (l2TokenDisjoint a b) := by
  unfold l2TokenDisjoint
  infer_instance

instance (a b : String × Leaf) : Decidable (l3TokenDisjoint a b) := by
  unfold l3TokenDisjoint
  infer_instance

/-- A word as produced by whitespace splitting: non-empty and free of
whitespace characters. -/
def NiceWord (w : List Char) : Prop :=
  w ≠ [] ∧ ∀ c ∈ w, c.isWhitespace = false

/-- Every element of the list is a `NiceWord`. -/
def NiceWords (ws : List (List Char)) : Prop := ∀ w ∈ ws, NiceWord w

/-- Word lists whose character contents are nice words. -/
def NiceParts (parts : List String) : Prop := NiceWords (parts.map String.data)

/-- The word list of `_cleanup_label` after pattern removal and the
`max_words` truncation, before the trailing-connector strip. -/
def truncatedWords (label : String) (max_words : Nat) : List String :=
  let words := pyWords (applyVerbosePatterns label)
  if words.length > max_words then words.take max_words else words

/-- A framework with a single topic, used by loop witnesses. -/
def fwWitness : List (String × FWNode) := [("L1_A", { label := some "Alpha" })]

/-- Branch content that always fails MECE validation (two labels sharing
two tokens). -/
def failingBranches : List (String × L2Node) :=
  [("B1", { label := some "Market Growth Rate", question := none, L3 := [] }),
   ("B2", { label := some "Market Growth Speed", question := none, L3 := [] })]

/-- Initial batched L2 generation used by loop witnesses. -/
def l2InitGenWitness : List (String × List (String × L2Node)) :=
  [("L1_A", failingBranches)]

/-- Always-failing L2 regeneration stub. -/
def l2RegenWitness : String → String → List (String × L2Node) :=
  fun _ _ => failingBranches

/-- Topic template with a single branch, used by L3 loop witnesses. -/
def l1TplWitness : L1Tpl :=
  { label := some "Topic", L2_branches := [("B1", { label := some "Branch" })] }

/-- A leaf missing four of its five required fields. -/
def failingLeaf : Leaf := [("label", "Some Leaf")]

/-- Initial batched L3 generation used by loop witnesses. -/
def l3InitGenWitness : List (String × List Leaf) := [("B1", [failingLeaf])]

/-- Always-failing L3 regeneration stub. -/
def l3RegenWitness : String → String → List Leaf := fun _ _ => [failingLeaf]

/-- Loop state with one passing scope "A" and one failing scope "B". -/
def l2StateWitness : L2LoopState :=
  { l2_branches := [("A", [("C1", { label := some "Alpha", question := none,
                                    L3 := [] })]),
                    ("B", failingBranches)],
    temp_tree := [("A", { label := some "A",
                          L2 := [("C1", { label := some "Alpha",
                                          question := none, L3 := [] })] }),
                  ("B", { label := some "B", L2 := failingBranches })],
    l1_results := [],
    attempts := [],
    memory := { failures := [] },
    failed_l1_keys := ["B"],
    oracle_calls := [] }

/-- L3 loop state with one passing scope "A" and one failing scope "B". -/
def l3StateWitness : L3LoopState :=
  { l3_leaves := [("A", [failingLeaf]), ("B", [failingLeaf])],
    temp_tree := buildTempTreeL3 "T"
      { label := some "T",
        L2_branches := [("A", { label := some "A" }),
                        ("B", { label := some "B" })] }
      [("A", [failingLeaf]), ("B", [failingLeaf])],
    l2_results := [],
    attempts := [],
    memory := { failures := [] },
    failed_l2_keys := ["B"],
    oracle_calls := [] }

/-! ## Theorems -/

theorem dictGet_modify_ne {α : Type} (d : List (String × α)) (k k' : String)
    (f : α → α) (h : k' ≠ k) : dictGet (dictModify d k f) k' = dictGet d k' := by
  induction d with
  | nil => rfl
  | cons p d ih =>
    obtain ⟨k₁, v⟩ := p
    simp only [dictModify]
    by_cases h₁ : k₁ = k
    · rw [if_pos h₁]
      have hne : ¬k₁ = k' := by rw [h₁]; exact fun hh => h (Eq.symm hh)
      simp only [dictGet, if_neg hne]
      exact ih
    · rw [if_neg h₁]
      simp only [dictGet]
      by_cases h₂ : k₁ = k'
      · rw [if_pos h₂, if_pos h₂]
      · rw [if_neg h₂, if_neg h₂]
        exact ih

theorem dictGet_modify_self {α : Type} (d : List (String × α)) (k : String)
    (f : α → α) (v : α) (h : dictGet d k = some v) :
    dictGet (dictModify d k f) k = some (f v) := by
  induction d with
  | nil => simp [dictGet] at h
  | cons p d ih =>
    obtain ⟨k₁, w⟩ := p
    by_cases h₁ : k₁ = k
    · subst h₁
      simp only [dictGet, if_pos rfl] at h
      cases h
      simp [dictModify, dictGet]
    · simp only [dictGet, if_neg h₁] at h
      simp only [dictModify, if_neg h₁, dictGet, if_neg h₁]
      exact ih h

theorem dictGet_append_right {α : Type} (d e : List (String × α)) (k : String)
    (h : dictGet d k = none) : dictGet (d ++ e) k = dictGet e k := by
  induction d with
  | nil => rfl
  | cons p d ih =>
    obtain ⟨k₁, v⟩ := p
    by_cases h₁ : k₁ = k
    · simp [dictGet, h₁] at h
    · simp only [dictGet, if_neg h₁] at h
      simp only [List.cons_append, dictGet, if_neg h₁]
      exact ih h

theorem containsKey_iff_dictGet {α : Type} (d : List (String × α)) (k : String) :
    containsKey d k = true ↔ dictGet d k ≠ none := by
  induction d with
  | nil => simp [containsKey, dictGet]
  | cons p d ih =>
    obtain ⟨k₁, v⟩ := p
    by_cases h₁ : k₁ = k
    · simp [containsKey, dictGet, h₁]
    · simp only [containsKey, dictGet, if_neg h₁]
      simpa [h₁] using ih

theorem dictGet_insert_self {α : Type} (d : List (String × α)) (k : String)
    (v : α) : dictGet (dictInsert d k v) k = some v := by
  unfold dictInsert
  by_cases h : containsKey d k = true
  · rw [if_pos h]
    rw [containsKey_iff_dictGet] at h
    obtain ⟨w, hw⟩ := Option.ne_none_iff_exists'.mp h
    exact dictGet_modify_self d k _ w hw
  · rw [if_neg h]
    have hn : dictGet d k = none := by
      by_contra hc
      exact h ((containsKey_iff_dictGet d k).mpr hc)
    rw [dictGet_append_right d _ k hn]
    simp [dictGet]

theorem dictGet_append_single_ne {α : Type} (d : List (String × α))
    (k k' : String) (v : α) (h : k' ≠ k) :
    dictGet (d ++ [(k, v)]) k' = dictGet d k' := by
  induction d with
  | nil =>
    have hne : ¬k = k' := fun hh => h (Eq.symm hh)
    simp [dictGet, if_neg hne]
  | cons p d ih =>
    obtain ⟨k₁, w⟩ := p
    simp only [List.cons_append, dictGet]
    by_cases h₁ : k₁ = k'
    · simp [h₁]
    · simp only [if_neg h₁]
      exact ih

theorem dictGet_insert_ne {α : Type} (d : List (String × α)) (k k' : String)
    (v : α) (h : k' ≠ k) : dictGet (dictInsert d k v) k' = dictGet d k' := by
  unfold dictInsert
  by_cases hc : containsKey d k = true
  · rw [if_pos hc]
    exact dictGet_modify_ne d k k' _ h
  · rw [if_neg hc]
    exact dictGet_append_single_ne d k k' v h

/-- C9: validation is pure and idempotent — revalidating the same unchanged
scope (same tree, keys and problem text) returns an identical result value
for each of the three entry points of mece_validator.py. -/
theorem validation_pure_idempotent (s : MStructure) (t : HTree) (k1 k2 : String) :
    validate_mece_structure s = validate_mece_structure s ∧
    validate_l2_branches t k1 = validate_l2_branches t k1 ∧
    validate_l3_leaves t k1 k2 = validate_l3_leaves t k1 k2 :=
  ⟨rfl, rfl, rfl⟩

/-- C6: topic-level overlap detection flags "Cost Analysis" vs "Financial
Impact" as (exactly one) semantic Overlap from the fixed map although their
token sets share no word at all, and reports exactly zero overlaps for the
allowlisted Desirability/Feasibility/Viability topic set. -/
theorem semantic_overlap_and_protected_pattern :
    (validate_mece_structure costFinancialStructure).issues.overlaps =
      ["L1 categories \x27Cost Analysis\x27 and \x27Financial Impact\x27 may have semantic overlap"] ∧
    (commonTokens (tokenSet (pyLower "Cost Analysis") l1StopWords)
       (tokenSet (pyLower "Financial Impact") l1StopWords)).length ≤ 1 ∧
    (validate_mece_structure dfvStructure).issues.overlaps = [] ∧
    (valid_patterns.any fun pattern =>
      (dfvStructure.tree.map fun p => l1LabelLower p.1 p.2).all fun label =>
        pattern.any fun q => containsSub label q) = true := by
  refine ⟨by decide, by decide, by decide, by decide⟩

/-- Helper: the branch-level verdict passes iff both issue lists are empty. -/
theorem l2BranchesVerdict_is_mece_iff (k : String) (bs : List (String × L2Node)) :
    (l2BranchesVerdict k bs).is_mece = true ↔
      ((l2BranchesVerdict k bs).issues.overlaps = [] ∧
       (l2BranchesVerdict k bs).issues.level_inconsistencies = []) := by
  unfold l2BranchesVerdict
  by_cases h : bs.isEmpty
  · simp [h]
  · simp [h, List.isEmpty_iff]

/-- Helper: the leaf-level verdict passes iff all three issue lists are empty. -/
theorem l3LeavesVerdict_is_mece_iff (k1 k2 : String) (ls : List (String × Leaf)) :
    (l3LeavesVerdict k1 k2 ls).is_mece = true ↔
      ((l3LeavesVerdict k1 k2 ls).issues.overlaps = [] ∧
       (l3LeavesVerdict k1 k2 ls).issues.level_inconsistencies = [] ∧
       (l3LeavesVerdict k1 k2 ls).issues.missing_fields = []) := by
  unfold l3LeavesVerdict
  by_cases h : ls.isEmpty
  · simp [h]
  · simp [h, List.isEmpty_iff, and_assoc]

/-- Helper: the leaf-level validator passes iff all three issue lists are
empty, through the scope-resolution match as well. -/
theorem validate_l3_leaves_is_mece_iff (t : HTree) (k1 k2 : String) :
    (validate_l3_leaves t k1 k2).is_mece = true ↔
      ((validate_l3_leaves t k1 k2).issues.overlaps = [] ∧
       (validate_l3_leaves t k1 k2).issues.level_inconsistencies = [] ∧
       (validate_l3_leaves t k1 k2).issues.missing_fields = []) := by
  cases hget : dictGet t k1 with
  | none => simp only [validate_l3_leaves, hget]; simp
  | some n =>
    cases hget2 : dictGet n.L2 k2 with
    | none => simp only [validate_l3_leaves, hget, hget2]; simp
    | some b =>
      simp only [validate_l3_leaves, hget, hget2]
      exact l3LeavesVerdict_is_mece_iff k1 k2 b.L3

/-- C1: for every validated scope the verdict satisfies `is_mece` = (no
Overlap and no LevelInconsistency and, at the leaf scope, no MissingField);
Gap findings surface only in `warnings`; a result with no overlaps and no
level inconsistencies but some gaps still passes with a non-empty warnings
list, while any overlap forces `is_mece = false`. -/
theorem gap_independence (s : MStructure) (t : HTree) (k1 k2 : String) :
    ((validate_mece_structure s).is_mece = true ↔
      ((validate_mece_structure s).issues.overlaps = [] ∧
       (validate_mece_structure s).issues.level_inconsistencies = [])) ∧
    (validate_mece_structure s).warnings = _check_l1_gaps s.tree s.problem ∧
    ((validate_mece_structure s).issues.overlaps = [] →
     (validate_mece_structure s).issues.level_inconsistencies = [] →
     (validate_mece_structure s).warnings ≠ [] →
     (validate_mece_structure s).is_mece = true ∧
       (validate_mece_structure s).warnings ≠ []) ∧
    ((validate_mece_structure s).issues.overlaps ≠ [] →
     (validate_mece_structure s).is_mece = false) ∧
    ((validate_l2_branches t k1).is_mece = true ↔
      ((validate_l2_branches t k1).issues.overlaps = [] ∧
       (validate_l2_branches t k1).issues.level_inconsistencies = [])) ∧
    ((validate_l3_leaves t k1 k2).is_mece = true ↔
      ((validate_l3_leaves t k1 k2).issues.overlaps = [] ∧
       (validate_l3_leaves t k1 k2).issues.level_inconsistencies = [] ∧
       (validate_l3_leaves t k1 k2).issues.missing_fields = [])) := by
  have hmece : (validate_mece_structure s).is_mece =
      ((_check_l1_overlaps s.tree).isEmpty &&
       (_check_level_consistency s.tree).isEmpty) := rfl
  have hov : (validate_mece_structure s).issues.overlaps =
      _check_l1_overlaps s.tree := rfl
  have hinc : (validate_mece_structure s).issues.level_inconsistencies =
      _check_level_consistency s.tree := rfl
  have hw : (validate_mece_structure s).warnings =
      _check_l1_gaps s.tree s.problem := rfl
  refine ⟨?_, hw, ?_, ?_, ?_, validate_l3_leaves_is_mece_iff t k1 k2⟩
  · rw [hmece, hov, hinc]
    simp [List.isEmpty_iff]
  · intro h1 h2 h3
    rw [hov] at h1
    rw [hinc] at h2
    refine ⟨?_, h3⟩
    rw [hmece, h1, h2]
    rfl
  · intro h
    rw [hov] at h
    rw [hmece]
    cases ho : _check_l1_overlaps s.tree with
    | nil => exact absurd ho h
    | cons a l => simp [ho]
  · unfold validate_l2_branches
    cases hget : dictGet t k1 with
    | none => simp
    | some n => exact l2BranchesVerdict_is_mece_iff k1 n.L2

/-- Witness for C1: a structure whose only finding is a Gap passes MECE with
a non-empty warnings list. -/
theorem gap_independence_witness :
    (validate_mece_structure gapOnlyStructure).is_mece = true ∧
    (validate_mece_structure gapOnlyStructure).warnings ≠ [] := by
  have h := gap_independence gapOnlyStructure [] "" ""
  exact h.2.2.1 (by decide) (by decide) (by decide)

/-- Counterexample to C4 as stated: the empty topic map (an empty sibling
set at the topic level) is not failed — `validate_mece_structure` has no
"no children" check and returns `is_mece = true`. -/
theorem empty_topic_map_passes :
    (validate_mece_structure { tree := [], problem := "" }).is_mece = true := by
  decide

/-- C4 (amended): an empty sibling set is an immediate hard failure at the
branch and leaf levels ("No L2 branches found" / "No L3 leaves found"), but
at the topic level an empty topic map is not failed: `validate_mece_structure`
returns `is_mece = true` on it for every problem text. -/
theorem empty_sibling_set_verdicts :
    (∀ (t : HTree) (k : String) (n : L1Node), dictGet t k = some n → n.L2 = [] →
      (validate_l2_branches t k).is_mece = false ∧
      (validate_l2_branches t k).issues.level_inconsistencies =
        ["No L2 branches found"]) ∧
    (∀ (t : HTree) (k1 k2 : String) (n : L1Node) (b : L2Node),
      dictGet t k1 = some n → dictGet n.L2 k2 = some b → b.L3 = [] →
      (validate_l3_leaves t k1 k2).is_mece = false ∧
      (validate_l3_leaves t k1 k2).issues.level_inconsistencies =
        ["No L3 leaves found"]) ∧
    (∀ p : String,
      (validate_mece_structure { tree := [], problem := p }).is_mece = true) := by
  refine ⟨?_, ?_, fun p => rfl⟩
  · intro t k n hget hL2
    simp only [validate_l2_branches, hget, hL2]
    exact ⟨rfl, rfl⟩
  · intro t k1 k2 n b hget hget2 hL3
    simp only [validate_l3_leaves, hget, hget2, hL3]
    exact ⟨rfl, rfl⟩

/-- Witness for C4 (amended) at concrete empty branch and leaf scopes. -/
theorem empty_sibling_set_verdicts_witness :
    (validate_l2_branches [("K", { label := none, L2 := [] })] "K").is_mece =
      false ∧
    (validate_l3_leaves
      [("K", { label := none,
               L2 := [("B", { label := none, question := none, L3 := [] })] })]
      "K" "B").is_mece = false ∧
    (validate_mece_structure { tree := [], problem := "x" }).is_mece = true := by
  obtain ⟨h1, h2, h3⟩ := empty_sibling_set_verdicts
  exact ⟨(h1 _ "K" { label := none, L2 := [] } (by decide) (by decide)).1,
         (h2 _ "K" "B"
            { label := none,
              L2 := [("B", { label := none, question := none, L3 := [] })] }
            { label := none, question := none, L3 := [] }
            (by decide) (by decide) (by decide)).1,
         h3 "x"⟩

/-- Counterexample to C5 as stated: referencing an absent L1 key does not
surface a distinct error outcome — `validate_l2_branches` returns an
ordinary verdict value of the same shape as any normal MECE failure, with
the "not found" text stored in `issues.overlaps`. -/
theorem scope_not_found_is_ordinary_verdict :
    validate_l2_branches [] "L1_X" =
      { is_mece := false, level := "L2", component := "L1_X",
        issues := { overlaps := ["L1 category L1_X not found"],
                    level_inconsistencies := [] } } := by
  decide

/-- C5 (amended): looking up an absent parent scope returns an ordinary
`is_mece = false` verdict whose overlaps list holds a "... not found"
message, for each of the three absent-key cases; no outcome distinct from a
normal validation result is produced. -/
theorem scope_not_found_verdicts :
    (∀ (t : HTree) (k : String), dictGet t k = none →
      validate_l2_branches t k =
        { is_mece := false, level := "L2", component := k,
          issues := { overlaps := ["L1 category " ++ k ++ " not found"],
                      level_inconsistencies := [] } }) ∧
    (∀ (t : HTree) (k1 k2 : String), dictGet t k1 = none →
      validate_l3_leaves t k1 k2 =
        { is_mece := false, level := "L3", component := k1 ++ "." ++ k2,
          issues := { overlaps := ["L1 category " ++ k1 ++ " not found"],
                      level_inconsistencies := [], missing_fields := [] } }) ∧
    (∀ (t : HTree) (k1 k2 : String) (n : L1Node), dictGet t k1 = some n →
      dictGet n.L2 k2 = none →
      validate_l3_leaves t k1 k2 =
        { is_mece := false, level := "L3", component := k1 ++ "." ++ k2,
          issues := { overlaps := ["L2 branch " ++ k2 ++ " not found in " ++ k1],
                      level_inconsistencies := [], missing_fields := [] } }) := by
  refine ⟨?_, ?_, ?_⟩
  · intro t k hget
    simp only [validate_l2_branches, hget]
  · intro t k1 k2 hget
    simp only [validate_l3_leaves, hget]
  · intro t k1 k2 n hget hget2
    simp only [validate_l3_leaves, hget, hget2]

/-- Witness for C5 (amended) at concrete absent keys. -/
theorem scope_not_found_verdicts_witness :
    validate_l2_branches [] "A" =
      { is_mece := false, level := "L2", component := "A",
        issues := { overlaps := ["L1 category A not found"],
                    level_inconsistencies := [] } } ∧
    validate_l3_leaves [] "A" "B" =
      { is_mece := false, level := "L3", component := "A.B",
        issues := { overlaps := ["L1 category A not found"],
                    level_inconsistencies := [], missing_fields := [] } } ∧
    validate_l3_leaves [("A", { label := none, L2 := [] })] "A" "B" =
      { is_mece := false, level := "L3", component := "A.B",
        issues := { overlaps := ["L2 branch B not found in A"],
                    level_inconsistencies := [], missing_fields := [] } } := by
  obtain ⟨h1, h2, h3⟩ := scope_not_found_verdicts
  refine ⟨?_, ?_, ?_⟩
  · have := h1 [] "A" (by decide)
    simpa using this
  · have := h2 [] "A" "B" (by decide)
    simpa using this
  · have := h3 [("A", { label := none, L2 := [] })] "A" "B"
      { label := none, L2 := [] } (by decide) (by decide)
    simpa using this

/-- Counterexample to C7 as stated: the branch pair "Cost Analysis" /
"Financial Impact" matches the fixed semantic map ("cost" with related term
"financial") yet `validate_l2_branches` emits no Overlap at all and passes
the scope — and likewise at L3; the semantic map is consulted only at the
topic level. -/
theorem l2_semantic_pair_not_flagged :
    containsSub (pyLower "Cost Analysis") "cost" = true ∧
    containsSub (pyLower "Financial Impact") "financial" = true ∧
    ("cost", ["financial", "budget", "savings", "roi"]) ∈ overlap_keywords ∧
    (validate_l2_branches costFinancialL2Tree "L1_TEST").issues.overlaps = [] ∧
    (validate_l2_branches costFinancialL2Tree "L1_TEST").is_mece = true ∧
    (validate_l3_leaves costFinancialL3Tree "L1_T" "L2_T").issues.overlaps = [] := by
  refine ⟨by decide, by decide, by decide, by decide, by decide, by decide⟩

/-- Helper: one L2 pair contributes nothing when the token intersection has
at most one element. -/
theorem l2PairMsg_eq_nil (ka : String) (na : L2Node) (kb : String) (nb : L2Node)
    (h : l2TokenDisjoint (ka, na) (kb, nb)) : l2PairMsg ka na kb nb = [] := by
  have h2 : (commonTokens (tokenSet (l2LabelLower ka na) l2StopWords)
      (tokenSet (l2LabelLower kb nb) l2StopWords)).length ≤ 1 := h
  unfold l2PairMsg
  rw [if_neg]
  omega

/-- Helper: the L2 pair loop emits nothing when every ordered pair of
entries has a token intersection of at most one element. -/
theorem l2PairLoop_eq_nil (l : List (String × L2Node))
    (h : List.Pairwise l2TokenDisjoint l) : l2PairLoop l = [] := by
  induction l with
  | nil => rfl
  | cons p rest ih =>
    obtain ⟨ka, na⟩ := p
    obtain ⟨hhead, htail⟩ := List.pairwise_cons.mp h
    show (rest.map fun q => l2PairMsg ka na q.1 q.2).flatten ++ l2PairLoop rest = []
    have h1 : (rest.map fun q => l2PairMsg ka na q.1 q.2).flatten = [] := by
      rw [List.flatten_eq_nil_iff]
      intro xs hxs
      obtain ⟨q, hq, rfl⟩ := List.mem_map.mp hxs
      exact l2PairMsg_eq_nil ka na q.1 q.2 (hhead q hq)
    rw [h1, ih htail]
    rfl

/-- Helper: one L3 pair contributes nothing when the token intersection has
at most one element. -/
theorem l3PairMsg_eq_nil (ka : String) (na : Leaf) (kb : String) (nb : Leaf)
    (h : l3TokenDisjoint (ka, na) (kb, nb)) : l3PairMsg ka na kb nb = [] := by
  have h2 : (commonTokens (tokenSet (l3LabelLower ka na) l3StopWords)
      (tokenSet (l3LabelLower kb nb) l3StopWords)).length ≤ 1 := h
  unfold l3PairMsg
  rw [if_neg]
  omega

/-- Helper: the L3 pair loop emits nothing when every ordered pair of
entries has a token intersection of at most one element. -/
theorem l3PairLoop_eq_nil (l : List (String × Leaf))
    (h : List.Pairwise l3TokenDisjoint l) : l3PairLoop l = [] := by
  induction l with
  | nil => rfl
  | cons p rest ih =>
    obtain ⟨ka, na⟩ := p
    obtain ⟨hhead, htail⟩ := List.pairwise_cons.mp h
    show (rest.map fun q => l3PairMsg ka na q.1 q.2).flatten ++ l3PairLoop rest = []
    have h1 : (rest.map fun q => l3PairMsg ka na q.1 q.2).flatten = [] := by
      rw [List.flatten_eq_nil_iff]
      intro xs hxs
      obtain ⟨q, hq, rfl⟩ := List.mem_map.mp hxs
      exact l3PairMsg_eq_nil ka na q.1 q.2 (hhead q hq)
    rw [h1, ih htail]
    rfl

/-- C7 (amended): the fixed semantic map is consulted only by topic-level
validation.  At the branch and leaf levels an Overlap is emitted only by
the >1-shared-token rule: whenever every ordered sibling pair shares at most
one non-stop-word token — in particular for semantically related pairs such
as "Cost Analysis"/"Financial Impact" — the overlaps list is empty, while
the same pair at topic level is flagged. -/
theorem l2_l3_overlaps_token_rule_only :
    (∀ (t : HTree) (k : String) (n : L1Node), dictGet t k = some n →
      List.Pairwise l2TokenDisjoint n.L2 →
      (validate_l2_branches t k).issues.overlaps = []) ∧
    (∀ (t : HTree) (k1 k2 : String) (n : L1Node) (b : L2Node),
      dictGet t k1 = some n → dictGet n.L2 k2 = some b →
      List.Pairwise l3TokenDisjoint b.L3 →
      (validate_l3_leaves t k1 k2).issues.overlaps = []) ∧
    (validate_mece_structure costFinancialStructure).issues.overlaps ≠ [] := by
  refine ⟨?_, ?_, by decide⟩
  · intro t k n hget h
    simp only [validate_l2_branches, hget]
    unfold l2BranchesVerdict
    by_cases he : n.L2.isEmpty
    · simp [he]
    · simp only [he, if_false, Bool.false_eq_true]
      exact l2PairLoop_eq_nil n.L2 h
  · intro t k1 k2 n b hget hget2 h
    simp only [validate_l3_leaves, hget, hget2]
    unfold l3LeavesVerdict
    by_cases he : b.L3.isEmpty
    · simp [he]
    · simp only [he, if_false, Bool.false_eq_true]
      exact l3PairLoop_eq_nil b.L3 h

/-- Witness for C7 (amended) at the concrete semantically related branch
and leaf pairs. -/
theorem l2_l3_overlaps_token_rule_only_witness :
    (validate_l2_branches costFinancialL2Tree "L1_TEST").issues.overlaps = [] ∧
    (validate_l3_leaves costFinancialL3Tree "L1_T" "L2_T").issues.overlaps = [] := by
  obtain ⟨h1, h2, _⟩ := l2_l3_overlaps_token_rule_only
  refine ⟨?_, ?_⟩
  · exact h1 costFinancialL2Tree "L1_TEST"
      { label := some "Test",
        L2 := [("L2_COST", { label := some "Cost Analysis", question := none, L3 := [] }),
               ("L2_FIN", { label := some "Financial Impact", question := none, L3 := [] })] }
      (by decide) (by decide)
  · exact h2 costFinancialL3Tree "L1_T" "L2_T"
      { label := some "Topic",
        L2 := [("L2_T",
          { label := some "Branch", question := none,
            L3 := [("LEAF_A", [("label", "Cost Analysis")]),
                   ("LEAF_B", [("label", "Financial Impact")])] })] }
      { label := some "Branch", question := none,
        L3 := [("LEAF_A", [("label", "Cost Analysis")]),
               ("LEAF_B", [("label", "Financial Impact")])] }
      (by decide) (by decide) (by decide)

/-- Helper: definitional unfolding of the newline join on two or more parts. -/
theorem joinNLCL_cons_cons (x y : List Char) (l : List (List Char)) :
    joinNLCL (x :: y :: l) = x ++ '\n' :: joinNLCL (y :: l) := rfl

/-- Helper: a newline join of at least two parts is a non-empty string. -/
theorem joinNL_two_ne_empty (a b : String) (l : List String) :
    joinNL (a :: b :: l) ≠ "" := by
  unfold joinNL
  intro hcon
  have hdata : joinNLCL (a.data :: b.data :: l.map String.data) = [] :=
    congrArg String.data hcon
  rw [joinNLCL_cons_cons] at hdata
  obtain ⟨-, hbad⟩ := List.append_eq_nil.mp hdata
  exact List.cons_ne_nil _ _ hbad

/-- C8: `record_failure` appends exactly one record, leaving every earlier
record in place (no deduplication); `get_failure_count` grows by one exactly
when the new record matches the level/component filter; and
`get_feedback_prompt` returns the empty string iff no recorded failure
matches the filter. -/
theorem validation_memory_laws (m : ValidationMemory) (lvl comp : String)
    (o i : List String) (it : Nat) (ts : String) :
    (m.record_failure lvl comp o i it ts).failures.length =
      m.failures.length + 1 ∧
    (m.record_failure lvl comp o i it ts).failures.take m.failures.length =
      m.failures ∧
    (∀ (flt : String) (c : Option String),
      (m.record_failure lvl comp o i it ts).get_failure_count flt c =
        m.get_failure_count flt c +
          (if failureMatches flt c
              { timestamp := ts, iteration := it, level := lvl, component := comp,
                overlaps := o, inconsistencies := i } = true
           then 1 else 0)) ∧
    (∀ (flt : String) (c : Option String),
      m.get_feedback_prompt flt c = "" ↔ m.get_failure_count flt c = 0) := by
  refine ⟨?_, ?_, ?_, ?_⟩
  · simp [ValidationMemory.record_failure]
  · simp only [ValidationMemory.record_failure]
    exact List.take_left _ _
  · intro flt c
    by_cases hp : failureMatches flt c
        { timestamp := ts, iteration := it, level := lvl, component := comp,
          overlaps := o, inconsistencies := i } = true
    · simp [ValidationMemory.get_failure_count, ValidationMemory.record_failure,
            List.filter_append, hp]
    · simp [ValidationMemory.get_failure_count, ValidationMemory.record_failure,
            List.filter_append, hp]
  · intro flt c
    unfold ValidationMemory.get_feedback_prompt ValidationMemory.get_failure_count
    by_cases he : (m.failures.filter (failureMatches flt c)).isEmpty
    · rw [List.isEmpty_iff] at he
      simp [he]
    · have hne : m.failures.filter (failureMatches flt c) ≠ [] := by
        intro hcon
        exact he (by simp [hcon])
      simp only [he, if_false, Bool.false_eq_true]
      constructor
      · intro hcon
        exact absurd hcon (joinNL_two_ne_empty _ _ _)
      · intro hcon
        exact absurd (List.length_eq_zero.mp hcon) hne

/-- Helper: unfolding equation of `wordsAux` on the empty list. -/
theorem wordsAux_nil_eq (acc : List Char) : wordsAux [] acc = flushAcc acc := rfl

/-- Helper: unfolding equation of `wordsAux` on a cons cell. -/
theorem wordsAux_cons_eq (c : Char) (cs acc : List Char) :
    wordsAux (c :: cs) acc =
      if c.isWhitespace then flushAcc acc ++ wordsAux cs []
      else wordsAux cs (c :: acc) := rfl

/-- Helper: splitting only produces nice words. -/
theorem wordsAux_nice (cs : List Char) :
    ∀ acc, (∀ c ∈ acc, c.isWhitespace = false) → NiceWords (wordsAux cs acc) := by
  induction cs with
  | nil =>
    intro acc hacc w hw
    unfold wordsAux flushAcc at hw
    by_cases he : acc.isEmpty
    · simp [he] at hw
    · simp only [he, if_false, Bool.false_eq_true, List.mem_singleton] at hw
      subst hw
      refine ⟨?_, ?_⟩
      · simpa [List.reverse_eq_nil_iff] using (by simpa [List.isEmpty_iff] using he)
      · intro c hc
        exact hacc c (List.mem_reverse.mp hc)
  | cons c cs ih =>
    intro acc hacc w hw
    unfold wordsAux at hw
    by_cases hws : c.isWhitespace
    · simp only [hws, if_true, List.mem_append] at hw
      rcases hw with hw | hw
      · unfold flushAcc at hw
        by_cases he : acc.isEmpty
        · simp [he] at hw
        · simp only [he, if_false, Bool.false_eq_true, List.mem_singleton] at hw
          subst hw
          refine ⟨?_, fun d hd => hacc d (List.mem_reverse.mp hd)⟩
          simpa [List.reverse_eq_nil_iff] using (by simpa [List.isEmpty_iff] using he)
      · exact ih [] (by intro d hd; simp at hd) w hw
    · simp only [hws, if_false] at hw
      refine ih (c :: acc) ?_ w hw
      intro d hd
      rcases List.mem_cons.mp hd with rfl | hd
      · simpa using hws
      · exact hacc d hd

/-- Helper: scanning a whitespace-free word accumulates it. -/
theorem wordsAux_through_word (w : List Char) :
    ∀ (rest acc : List Char), (∀ c ∈ w, c.isWhitespace = false) →
    wordsAux (w ++ rest) acc = wordsAux rest (w.reverse ++ acc) := by
  induction w with
  | nil => intro rest acc _; simp
  | cons c w ih =>
    intro rest acc hnice
    have hc : c.isWhitespace = false := hnice c (List.mem_cons_self c w)
    have lhs : wordsAux ((c :: w) ++ rest) acc = wordsAux (w ++ rest) (c :: acc) := by
      rw [List.cons_append, wordsAux_cons_eq, hc]
      simp
    rw [lhs, ih rest (c :: acc) (fun d hd => hnice d (List.mem_cons_of_mem c hd))]
    simp only [List.reverse_cons, List.append_assoc, List.singleton_append]

/-- Helper: splitting inverts a single-space join of nice words. -/
theorem wordsAux_joinSpCL (ws : List (List Char)) (h : NiceWords ws) :
    wordsAux (joinSpCL ws) [] = ws := by
  induction ws with
  | nil => rfl
  | cons w rest ih =>
    obtain ⟨hne, hnice⟩ := h w (List.mem_cons_self w rest)
    cases rest with
    | nil =>
      have h1 : wordsAux (w ++ []) [] = wordsAux [] (w.reverse ++ []) :=
        wordsAux_through_word w [] [] hnice
      simp only [List.append_nil] at h1
      show wordsAux w [] = [w]
      rw [h1]
      unfold wordsAux flushAcc
      have hrev : w.reverse.isEmpty = false := by
        simp [List.isEmpty_iff, List.reverse_eq_nil_iff, hne]
      rw [hrev]
      simp
    | cons v rest' =>
      have h1 : wordsAux (w ++ ' ' :: joinSpCL (v :: rest')) [] =
          wordsAux (' ' :: joinSpCL (v :: rest')) (w.reverse ++ []) :=
        wordsAux_through_word w _ [] hnice
      simp only [List.append_nil] at h1
      show wordsAux (w ++ ' ' :: joinSpCL (v :: rest')) [] = w :: v :: rest'
      rw [h1, wordsAux_cons_eq]
      have hsp : (' ' : Char).isWhitespace = true := by decide
      rw [hsp]
      simp only [if_true]
      unfold flushAcc
      have hrev : w.reverse.isEmpty = false := by
        simp [List.isEmpty_iff, List.reverse_eq_nil_iff, hne]
      rw [hrev]
      simp only [Bool.false_eq_true, if_false]
      have htail : wordsAux (joinSpCL (v :: rest')) [] = v :: rest' :=
        ih fun u hu => h u (List.mem_cons_of_mem w hu)
      rw [htail]
      simp

/-- Helper: the single-space join of nice words exposes its head form. -/
theorem joinSpCL_cons (w : List Char) (ws : List (List Char)) :
    joinSpCL (w :: ws) = w ++ (if ws.isEmpty then [] else ' ' :: joinSpCL ws) := by
  cases ws with
  | nil => simp [joinSpCL]
  | cons v rest => rfl

/-- Helper: the reverse of a non-empty nice join starts with a
non-whitespace character. -/
theorem joinSpCL_reverse_head (ws : List (List Char)) (h : NiceWords ws)
    (hne : ws ≠ []) :
    ∃ d t, (joinSpCL ws).reverse = d :: t ∧ d.isWhitespace = false := by
  induction ws with
  | nil => exact absurd rfl hne
  | cons w rest ih =>
    obtain ⟨hwne, hwnice⟩ := h w (List.mem_cons_self w rest)
    cases rest with
    | nil =>
      cases hrev : w.reverse with
      | nil => exact absurd (List.reverse_eq_nil_iff.mp hrev) hwne
      | cons d t =>
        refine ⟨d, t, ?_, ?_⟩
        · show (joinSpCL [w]).reverse = d :: t
          simpa [joinSpCL] using hrev
        · have : d ∈ w.reverse := by rw [hrev]; exact List.mem_cons_self d t
          exact hwnice d (List.mem_reverse.mp this)
    | cons v rest' =>
      obtain ⟨d, t, hdt, hd⟩ :=
        ih (fun u hu => h u (List.mem_cons_of_mem w hu)) (List.cons_ne_nil v rest')
      refine ⟨d, t ++ ' ' :: w.reverse, ?_, hd⟩
      show (w ++ ' ' :: joinSpCL (v :: rest')).reverse = _
      rw [List.reverse_append]
      show (' ' :: joinSpCL (v :: rest')).reverse ++ w.reverse = _
      rw [List.reverse_cons, hdt]
      simp

/-- Helper: Python `.strip()` leaves a single-space join of nice words
unchanged. -/
theorem pyStrip_joinSp (ws : List String)
    (h : NiceWords (ws.map String.data)) :
    pyStrip (joinSp ws) = joinSp ws := by
  unfold pyStrip joinSp
  generalize hws : ws.map String.data = wl at h
  cases wl with
  | nil => rfl
  | cons w rest =>
    obtain ⟨hwne, hwnice⟩ := h w (List.mem_cons_self w rest)
    cases w with
    | nil => exact absurd rfl hwne
    | cons c w' =>
      have hc : c.isWhitespace = false := hwnice c (List.mem_cons_self c w')
      have hhead : joinSpCL ((c :: w') :: rest) =
          c :: (w' ++ (if rest.isEmpty then [] else ' ' :: joinSpCL rest)) := by
        rw [joinSpCL_cons]
        rfl
      obtain ⟨d, t, hdt, hd⟩ :=
        joinSpCL_reverse_head ((c :: w') :: rest) h (List.cons_ne_nil _ _)
      congr 1
      rw [hhead, List.dropWhile_cons, hc]
      simp only [Bool.false_eq_true, if_false]
      rw [← hhead, hdt, List.dropWhile_cons, hd]
      simp only [Bool.false_eq_true, if_false]
      rw [← hdt, List.reverse_reverse]

/-- Helper: `String.mk` inverts `String.data` on both sides. -/
theorem pyWords_joinSp (parts : List String)
    (h : NiceWords (parts.map String.data)) :
    pyWords (joinSp parts) = parts := by
  unfold pyWords wordsCL joinSp
  show (wordsAux (joinSpCL (parts.map String.data)) []).map String.mk = parts
  rw [wordsAux_joinSpCL _ h]
  rw [List.map_map]
  have hcongr : ∀ a ∈ parts, (String.mk ∘ String.data) a = id a := fun a _ => rfl
  rw [List.map_congr_left hcongr, List.map_id]

/-- Helper: the words of any string are nice (at the character level). -/
theorem pyWords_nice (s : String) : NiceWords ((pyWords s).map String.data) := by
  unfold pyWords wordsCL
  rw [List.map_map]
  have hcongr : ∀ a ∈ wordsAux s.data [], (String.data ∘ String.mk) a = id a :=
    fun a _ => rfl
  rw [List.map_congr_left hcongr, List.map_id]
  exact wordsAux_nice s.data [] (by intro c hc; simp at hc)

/-- Helper: the words of any string form nice parts. -/
theorem niceParts_pyWords (s : String) : NiceParts (pyWords s) := pyWords_nice s

/-- Helper: a prefix of nice parts is nice. -/
theorem niceParts_take (parts : List String) (n : Nat) (h : NiceParts parts) :
    NiceParts (parts.take n) := by
  intro w hw
  obtain ⟨p, hp, rfl⟩ := List.mem_map.mp hw
  exact h p.data (List.mem_map.mpr ⟨p, List.take_subset n parts hp, rfl⟩)

/-- Helper: dropping the last of nice parts stays nice. -/
theorem niceParts_dropLast (parts : List String) (h : NiceParts parts) :
    NiceParts parts.dropLast := by
  intro w hw
  obtain ⟨p, hp, rfl⟩ := List.mem_map.mp hw
  exact h p.data (List.mem_map.mpr ⟨p, List.dropLast_subset parts hp, rfl⟩)

/-- Helper: `_cleanup_label` returns exactly the single-space join of its
truncated word list, with at most one trailing connector word removed. -/
theorem cleanup_label_eq_joinSp (label : String) (mw : Nat) :
    _cleanup_label label mw =
      joinSp (if lastIsConn (truncatedWords label mw) then
                (truncatedWords label mw).dropLast
              else truncatedWords label mw) := by
  have hnice0 : NiceParts (pyWords (applyVerbosePatterns label)) :=
    niceParts_pyWords _
  unfold _cleanup_label truncatedWords
  by_cases h1 : (pyWords (applyVerbosePatterns label)).length > mw
  · simp only [h1, if_true, gt_iff_lt, if_pos h1]
    have htw : pyWords (joinSp ((pyWords (applyVerbosePatterns label)).take mw)) =
        (pyWords (applyVerbosePatterns label)).take mw :=
      pyWords_joinSp _ (niceParts_take _ mw hnice0)
    rw [htw]
    by_cases h2 : lastIsConn ((pyWords (applyVerbosePatterns label)).take mw)
    · simp only [h2, if_true]
      have hdl : pyWords (joinSp
            ((pyWords (applyVerbosePatterns label)).take mw).dropLast) =
          ((pyWords (applyVerbosePatterns label)).take mw).dropLast :=
        pyWords_joinSp _ (niceParts_dropLast _ (niceParts_take _ mw hnice0))
      rw [hdl]
      exact pyStrip_joinSp _ (niceParts_dropLast _ (niceParts_take _ mw hnice0))
    · simp only [h2, Bool.false_eq_true, if_false]
      rw [htw]
      exact pyStrip_joinSp _ (niceParts_take _ mw hnice0)
  · simp only [h1, if_false, gt_iff_lt]
    by_cases h2 : lastIsConn (pyWords (applyVerbosePatterns label))
    · simp only [h2, if_true]
      have hdl : pyWords (joinSp
            (pyWords (applyVerbosePatterns label)).dropLast) =
          (pyWords (applyVerbosePatterns label)).dropLast :=
        pyWords_joinSp _ (niceParts_dropLast _ hnice0)
      rw [hdl]
      exact pyStrip_joinSp _ (niceParts_dropLast _ hnice0)
    · simp only [h2, Bool.false_eq_true, if_false]
      exact pyStrip_joinSp _ hnice0

/-- Helper: a word list whose last word is a connector decomposes as a
prefix plus that connector. -/
theorem lastIsConn_decomp (ws : List String) (h : lastIsConn ws = true) :
    ∃ pre c, ws = pre ++ [c] ∧ isConnWord c = true := by
  rcases List.eq_nil_or_concat ws with rfl | ⟨l, a, rfl⟩
  · simp [lastIsConn] at h
  · refine ⟨l, a, List.concat_eq_append l a, ?_⟩
    unfold lastIsConn at h
    rw [List.concat_eq_append, List.getLast?_concat] at h
    exact h

/-- Helper: the truncated word list respects the word bound. -/
theorem truncatedWords_length (label : String) (mw : Nat) :
    (truncatedWords label mw).length ≤ mw := by
  unfold truncatedWords
  by_cases h : (pyWords (applyVerbosePatterns label)).length > mw
  · simp only [h, if_true, gt_iff_lt, if_pos h, List.length_take]
    omega
  · simp only [h, if_false, gt_iff_lt]
    omega

/-- Helper: the truncated word list is nice. -/
theorem niceParts_truncatedWords (label : String) (mw : Nat) :
    NiceParts (truncatedWords label mw) := by
  unfold truncatedWords
  by_cases h : (pyWords (applyVerbosePatterns label)).length > mw
  · rw [if_pos h]
    exact niceParts_take _ mw (niceParts_pyWords _)
  · rw [if_neg h]
    exact niceParts_pyWords _

/-- Counterexample to C10 as stated: on the input "x and and" the cleaner
returns "x and", whose final word is the connector "and" — only one
trailing connector is stripped. -/
theorem cleanup_label_trailing_connector_cex :
    _cleanup_label "x and and" 6 = "x and" ∧
    pyWords (_cleanup_label "x and and" 6) = ["x", "and"] ∧
    isConnWord "and" = true := by
  refine ⟨by decide, by decide, by decide⟩

/-- C10 (amended): `_cleanup_label` returns at most `max_words` words, and
its final word can be "and"/"or"/"&" only when the truncated word list
ended in two consecutive connector words (exactly one trailing connector
is stripped). -/
theorem cleanup_label_word_limit (label : String) (mw : Nat) :
    (pyWords (_cleanup_label label mw)).length ≤ mw ∧
    (lastIsConn (pyWords (_cleanup_label label mw)) = true →
      ∃ pre c1 c2, truncatedWords label mw = pre ++ [c1, c2] ∧
        isConnWord c1 = true ∧ isConnWord c2 = true) := by
  have htw : pyWords (_cleanup_label label mw) =
      (if lastIsConn (truncatedWords label mw) then
        (truncatedWords label mw).dropLast
       else truncatedWords label mw) := by
    rw [cleanup_label_eq_joinSp label mw]
    by_cases hc : lastIsConn (truncatedWords label mw)
    · rw [if_pos hc]
      exact pyWords_joinSp _ (niceParts_dropLast _ (niceParts_truncatedWords label mw))
    · rw [if_neg hc]
      exact pyWords_joinSp _ (niceParts_truncatedWords label mw)
  have hlen := truncatedWords_length label mw
  constructor
  · rw [htw]
    by_cases hc : lastIsConn (truncatedWords label mw)
    · rw [if_pos hc, List.length_dropLast]
      omega
    · rw [if_neg hc]
      exact hlen
  · intro hlast
    rw [htw] at hlast
    by_cases hc : lastIsConn (truncatedWords label mw)
    · rw [if_pos hc] at hlast
      obtain ⟨pre, c1, hpre, hc1⟩ := lastIsConn_decomp _ hlast
      obtain ⟨pre2, c2, hpre2, hc2⟩ := lastIsConn_decomp _ hc
      refine ⟨pre, c1, c2, ?_, hc1, hc2⟩
      have hdl : (truncatedWords label mw).dropLast = pre2 := by
        rw [hpre2]
        exact List.dropLast_concat ..
      rw [hpre2, ← hdl, hpre]
      simp
    · rw [if_neg hc] at hlast
      exact absurd hlast hc

/-- Witness for C10 (amended): on "x and and" the strip fires and the
truncated list indeed ends in two connectors. -/
theorem cleanup_label_word_limit_witness :
    (pyWords (_cleanup_label "x and and" 6)).length ≤ 6 ∧
    ∃ pre c1 c2, truncatedWords "x and and" 6 = pre ++ [c1, c2] ∧
      isConnWord c1 = true ∧ isConnWord c2 = true := by
  have h := cleanup_label_word_limit "x and and" 6
  exact ⟨h.1, h.2 (by decide)⟩

/-- Helper: modifying a key rewrites its first binding through `Option.map`. -/
theorem dictGet_modify_eq {α : Type} (d : List (String × α)) (k : String)
    (f : α → α) : dictGet (dictModify d k f) k = (dictGet d k).map f := by
  induction d with
  | nil => rfl
  | cons p d ih =>
    obtain ⟨k₁, v⟩ := p
    by_cases h₁ : k₁ = k
    · simp [dictModify, dictGet, h₁]
    · simp only [dictModify, if_neg h₁, dictGet, if_neg h₁]
      exact ih

/-- Helper: one L2 repair step leaves every other scope's entries intact. -/
theorem l2ProcessScope_frame (regen : String → String → List (String × L2Node))
    (a : Nat) (ts : String) (st : L2LoopState) (k k' : String) (h : k' ≠ k) :
    dictGet (l2ProcessScope regen a ts st k).l2_branches k' =
      dictGet st.l2_branches k' ∧
    dictGet (l2ProcessScope regen a ts st k).temp_tree k' =
      dictGet st.temp_tree k' ∧
    dictGet (l2ProcessScope regen a ts st k).l1_results k' =
      dictGet st.l1_results k' ∧
    dictGet (l2ProcessScope regen a ts st k).attempts k' =
      dictGet st.attempts k' ∧
    dictGet (l2ProcessScope regen a ts st k).oracle_calls k' =
      dictGet st.oracle_calls k' ∧
    (k' ∈ (l2ProcessScope regen a ts st k).failed_l1_keys ↔
      k' ∈ st.failed_l1_keys) := by
  refine ⟨dictGet_insert_ne _ _ _ _ h, dictGet_modify_ne _ _ _ _ h,
          dictGet_insert_ne _ _ _ _ h, dictGet_insert_ne _ _ _ _ h,
          dictGet_insert_ne _ _ _ _ h, ?_⟩
  show k' ∈ (if _ then st.failed_l1_keys.erase k else st.failed_l1_keys) ↔ _
  split
  · exact List.mem_erase_of_ne h
  · exact Iff.rfl

/-- Helper: folding L2 repair steps over a worklist not containing a scope
leaves that scope's entries intact. -/
theorem l2Fold_frame (regen : String → String → List (String × L2Node))
    (a : Nat) (ts : String) :
    ∀ (todo : List String) (st : L2LoopState) (k' : String), k' ∉ todo →
    dictGet (todo.foldl (l2ProcessScope regen a ts) st).l2_branches k' =
      dictGet st.l2_branches k' ∧
    dictGet (todo.foldl (l2ProcessScope regen a ts) st).temp_tree k' =
      dictGet st.temp_tree k' := by
  intro todo
  induction todo with
  | nil => intro st k' _; exact ⟨rfl, rfl⟩
  | cons k rest ih =>
    intro st k' hk'
    have hne : k' ≠ k := fun hc => hk' (hc ▸ List.mem_cons_self k rest)
    have hrest : k' ∉ rest := fun hc => hk' (List.mem_cons_of_mem k hc)
    obtain ⟨hb, ht, _, _, _, _⟩ := l2ProcessScope_frame regen a ts st k k' hne
    obtain ⟨hb2, ht2⟩ := ih (l2ProcessScope regen a ts st k) k' hrest
    exact ⟨hb2.trans hb, ht2.trans ht⟩

/-- Helper: one L3 repair step leaves every other scope's entries intact
(the generated-leaves map, and the scope's slot inside the one-topic tree). -/
theorem l3ProcessScope_frame (l1_key : String)
    (regen : String → String → List Leaf) (a : Nat) (ts : String)
    (st : L3LoopState) (k k' : String) (h : k' ≠ k) :
    dictGet (l3ProcessScope l1_key regen a ts st k).l3_leaves k' =
      dictGet st.l3_leaves k' ∧
    ((dictGet (l3ProcessScope l1_key regen a ts st k).temp_tree l1_key).map
        fun n => dictGet n.L2 k') =
      ((dictGet st.temp_tree l1_key).map fun n => dictGet n.L2 k') ∧
    dictGet (l3ProcessScope l1_key regen a ts st k).l2_results k' =
      dictGet st.l2_results k' ∧
    dictGet (l3ProcessScope l1_key regen a ts st k).attempts k' =
      dictGet st.attempts k' ∧
    dictGet (l3ProcessScope l1_key regen a ts st k).oracle_calls k' =
      dictGet st.oracle_calls k' ∧
    (k' ∈ (l3ProcessScope l1_key regen a ts st k).failed_l2_keys ↔
      k' ∈ st.failed_l2_keys) := by
  refine ⟨dictGet_insert_ne _ _ _ _ h, ?_,
          dictGet_insert_ne _ _ _ _ h, dictGet_insert_ne _ _ _ _ h,
          dictGet_insert_ne _ _ _ _ h, ?_⟩
  · show ((dictGet (dictModify st.temp_tree l1_key _) l1_key).map
        fun n => dictGet n.L2 k') = _
    rw [dictGet_modify_eq]
    cases hn : dictGet st.temp_tree l1_key with
    | none => rfl
    | some n =>
      simp only [Option.map_some, Option.map]
      exact congrArg some (dictGet_modify_ne _ _ _ _ h)
  · show k' ∈ (if _ then st.failed_l2_keys.erase k else st.failed_l2_keys) ↔ _
    split
    · exact List.mem_erase_of_ne h
    · exact Iff.rfl

/-- Helper: folding L3 repair steps over a worklist not containing a scope
leaves that scope's entries intact. -/
theorem l3Fold_frame (l1_key : String) (regen : String → String → List Leaf)
    (a : Nat) (ts : String) :
    ∀ (todo : List String) (st : L3LoopState) (k' : String), k' ∉ todo →
    dictGet (todo.foldl (l3ProcessScope l1_key regen a ts) st).l3_leaves k' =
      dictGet st.l3_leaves k' ∧
    ((dictGet (todo.foldl (l3ProcessScope l1_key regen a ts) st).temp_tree
        l1_key).map fun n => dictGet n.L2 k') =
      ((dictGet st.temp_tree l1_key).map fun n => dictGet n.L2 k') := by
  intro todo
  induction todo with
  | nil => intro st k' _; exact ⟨rfl, rfl⟩
  | cons k rest ih =>
    intro st k' hk'
    have hne : k' ≠ k := fun hc => hk' (hc ▸ List.mem_cons_self k rest)
    have hrest : k' ∉ rest := fun hc => hk' (List.mem_cons_of_mem k hc)
    obtain ⟨hb, ht, _, _, _, _⟩ := l3ProcessScope_frame l1_key regen a ts st k k' hne
    obtain ⟨hb2, ht2⟩ := ih (l3ProcessScope l1_key regen a ts st k) k' hrest
    exact ⟨hb2.trans hb, ht2.trans ht⟩

/-- C3: a repair round regenerates only the failing scopes — for every
scope not in the failing set at the start of the round (in particular every
scope that already validated `is_mece = true`), its entry in the generated
branches/leaves mapping and its slot in the validation tree are identical
before and after the round, for both batched generators. -/
theorem repair_round_scope_isolation :
    (∀ (regen : String → String → List (String × L2Node)) (a : Nat)
       (ts : String) (st : L2LoopState) (k' : String),
      k' ∉ st.failed_l1_keys →
      dictGet (l2RepairRound regen a ts st).l2_branches k' =
        dictGet st.l2_branches k' ∧
      dictGet (l2RepairRound regen a ts st).temp_tree k' =
        dictGet st.temp_tree k') ∧
    (∀ (l1_key : String) (regen : String → String → List Leaf) (a : Nat)
       (ts : String) (st : L3LoopState) (k' : String),
      k' ∉ st.failed_l2_keys →
      dictGet (l3RepairRound l1_key regen a ts st).l3_leaves k' =
        dictGet st.l3_leaves k' ∧
      ((dictGet (l3RepairRound l1_key regen a ts st).temp_tree l1_key).map
          fun n => dictGet n.L2 k') =
        ((dictGet st.temp_tree l1_key).map fun n => dictGet n.L2 k')) := by
  constructor
  · intro regen a ts st k' hk'
    exact l2Fold_frame regen a ts st.failed_l1_keys st k' hk'
  · intro l1_key regen a ts st k' hk'
    exact l3Fold_frame l1_key regen a ts st.failed_l2_keys st k' hk'

/-- Helper: resolving a present L1 key reduces the branch validator to its
verdict body. -/
theorem validate_l2_branches_some (t : HTree) (k : String) (n : L1Node)
    (h : dictGet t k = some n) :
    validate_l2_branches t k = l2BranchesVerdict k n.L2 := by
  simp only [validate_l2_branches, h]

/-- Helper: the initial L2 scan never touches the temporary tree. -/
theorem l2InitScan_temp (ts : String) :
    ∀ (todo : List String) (st : L2LoopState),
      (todo.foldl (l2InitStep ts) st).temp_tree = st.temp_tree := by
  intro todo
  induction todo with
  | nil => intro st; rfl
  | cons k rest ih => intro st; exact ih (l2InitStep ts st k)

/-- Helper: the initial L2 scan never touches the ghost call counters. -/
theorem l2InitScan_calls (ts : String) :
    ∀ (todo : List String) (st : L2LoopState),
      (todo.foldl (l2InitStep ts) st).oracle_calls = st.oracle_calls := by
  intro todo
  induction todo with
  | nil => intro st; rfl
  | cons k rest ih => intro st; exact ih (l2InitStep ts st k)

/-- Helper: the initial L2 scan appends exactly the failing keys, in order,
to the failing list. -/
theorem l2InitScan_failed (ts : String) :
    ∀ (todo : List String) (st : L2LoopState),
      (todo.foldl (l2InitStep ts) st).failed_l1_keys =
        st.failed_l1_keys ++ todo.filter
          (fun k => !(validate_l2_branches st.temp_tree k).is_mece) := by
  intro todo
  induction todo with
  | nil => intro st; simp
  | cons k rest ih =>
    intro st
    have hstepf : (l2InitStep ts st k).failed_l1_keys =
        (if (validate_l2_branches st.temp_tree k).is_mece then
          st.failed_l1_keys
         else st.failed_l1_keys ++ [k]) := rfl
    have hstept : (l2InitStep ts st k).temp_tree = st.temp_tree := rfl
    rw [List.foldl_cons, ih (l2InitStep ts st k), hstepf, hstept,
        List.filter_cons]
    by_cases hv : (validate_l2_branches st.temp_tree k).is_mece
    · rw [if_pos hv]
      have hb : (!(validate_l2_branches st.temp_tree k).is_mece) = false := by
        simp [hv]
      rw [hb]
      simp
    · rw [if_neg hv]
      have hb : (!(validate_l2_branches st.temp_tree k).is_mece) = true := by
        simp [hv]
      rw [hb]
      simp

/-- Helper: the initial L2 scan records, for every scanned key, the verdict
against the (unchanging) temporary tree and an attempt count of 1; entries
of unscanned keys are untouched. -/
theorem l2InitScan_entries (ts : String) :
    ∀ (todo : List String) (st : L2LoopState), todo.Nodup →
      (∀ k, k ∉ todo →
        dictGet (todo.foldl (l2InitStep ts) st).l1_results k =
          dictGet st.l1_results k ∧
        dictGet (todo.foldl (l2InitStep ts) st).attempts k =
          dictGet st.attempts k) ∧
      (∀ k ∈ todo,
        dictGet (todo.foldl (l2InitStep ts) st).l1_results k =
          some (validate_l2_branches st.temp_tree k) ∧
        dictGet (todo.foldl (l2InitStep ts) st).attempts k = some 1) := by
  intro todo
  induction todo with
  | nil =>
    intro st _
    exact ⟨fun k _ => ⟨rfl, rfl⟩, fun k hk => absurd hk (List.not_mem_nil k)⟩
  | cons k₀ rest ih =>
    intro st hnd
    obtain ⟨hk₀, hrest⟩ := List.nodup_cons.mp hnd
    have hres : (l2InitStep ts st k₀).l1_results =
        dictInsert st.l1_results k₀ (validate_l2_branches st.temp_tree k₀) := rfl
    have hatt : (l2InitStep ts st k₀).attempts =
        dictInsert st.attempts k₀ 1 := rfl
    have htemp : (l2InitStep ts st k₀).temp_tree = st.temp_tree := rfl
    obtain ⟨hout, hin⟩ := ih (l2InitStep ts st k₀) hrest
    constructor
    · intro k hk
      have hne : k ≠ k₀ := fun hc => hk (hc ▸ List.mem_cons_self k₀ rest)
      have hnr : k ∉ rest := fun hc => hk (List.mem_cons_of_mem k₀ hc)
      obtain ⟨h1, h2⟩ := hout k hnr
      rw [List.foldl_cons, h1, h2, hres, hatt,
          dictGet_insert_ne _ _ _ _ hne, dictGet_insert_ne _ _ _ _ hne]
      exact ⟨rfl, rfl⟩
    · intro k hk
      rcases List.mem_cons.mp hk with rfl | hk
      · obtain ⟨h1, h2⟩ := hout k hk₀
        rw [List.foldl_cons, h1, h2, hres, hatt,
            dictGet_insert_self, dictGet_insert_self]
        exact ⟨rfl, rfl⟩
      · obtain ⟨h1, h2⟩ := hin k hk
        rw [List.foldl_cons, h1, h2, htemp]
        exact ⟨rfl, rfl⟩

/-- Helper: a fold of keyed inserts makes every folded key present (and
keeps every already-present key present). -/
theorem dictGet_foldl_insert_ne_none {α β : Type} (g : String × β → α) :
    ∀ (l : List (String × β)) (init : List (String × α)) (k : String),
      (k ∈ l.map Prod.fst ∨ dictGet init k ≠ none) →
      dictGet (l.foldl (fun acc p => dictInsert acc p.1 (g p)) init) k ≠ none := by
  intro l
  induction l with
  | nil =>
    intro init k h
    rcases h with h | h
    · simp at h
    · exact h
  | cons p rest ih =>
    intro init k h
    rw [List.foldl_cons]
    apply ih
    by_cases hk : k = p.1
    · right
      rw [hk, dictGet_insert_self]
      exact Option.some_ne_none _
    · rcases h with h | h
      · rcases List.mem_map.mp h with ⟨q, hq, hq1⟩
        rcases List.mem_cons.mp hq with rfl | hq
        · exact absurd hq1.symm hk
        · exact Or.inl (List.mem_map.mpr ⟨q, hq, hq1⟩)
      · right
        rw [dictGet_insert_ne _ _ _ _ hk]
        exact h

/-- Helper: every framework key is present in the built temporary tree. -/
theorem buildTempTreeL2_mem (fw : List (String × FWNode))
    (initGen : List (String × List (String × L2Node))) (k : String)
    (hk : k ∈ fw.map Prod.fst) :
    dictGet (buildTempTreeL2 fw initGen) k ≠ none := by
  unfold buildTempTreeL2
  exact dictGet_foldl_insert_ne_none _ fw [] k (Or.inl hk)

/-- Helper: the ghost counter map initialises every framework key to 1. -/
theorem initCalls_mem {β : Type} :
    ∀ (fw : List (String × β)) (k : String), k ∈ fw.map Prod.fst →
      dictGet (fw.map fun p => (p.1, 1)) k = some 1 := by
  intro fw
  induction fw with
  | nil => intro k hk; simp at hk
  | cons p rest ih =>
    intro k hk
    obtain ⟨q, hq, rfl⟩ := List.mem_map.mp hk
    show dictGet ((p.1, 1) :: rest.map fun r => (r.1, 1)) q.1 = some 1
    by_cases hkp : p.1 = q.1
    · simp [dictGet, hkp]
    · simp only [dictGet, if_neg hkp]
      rcases List.mem_cons.mp hq with rfl | hq
      · exact absurd rfl hkp
      · exact ih q.1 (List.mem_map.mpr ⟨q, hq, rfl⟩)

/-- Helper: an always-failing regeneration round keeps every scope failing
and advances every scope's attempt and call counters to the round number. -/
theorem l2Fold_AF (regen : String → String → List (String × L2Node))
    (ts : String) (a : Nat) (ha : 1 ≤ a) (KS : List String)
    (hAF : ∀ k fb, (l2BranchesVerdict k (regen k fb)).is_mece = false) :
    ∀ (todo : List String) (st : L2LoopState), todo.Nodup → todo ⊆ KS →
      st.failed_l1_keys = KS →
      (∀ k ∈ KS, dictGet st.temp_tree k ≠ none) →
      (∀ k ∈ KS, k ∈ todo →
        dictGet st.attempts k = some (a - 1) ∧
        dictGet st.oracle_calls k = some (a - 1)) →
      (∀ k ∈ KS, k ∉ todo →
        dictGet st.attempts k = some a ∧ dictGet st.oracle_calls k = some a) →
      (todo.foldl (l2ProcessScope regen a ts) st).failed_l1_keys = KS ∧
      (∀ k ∈ KS,
        dictGet (todo.foldl (l2ProcessScope regen a ts) st).temp_tree k ≠ none) ∧
      (∀ k ∈ KS,
        dictGet (todo.foldl (l2ProcessScope regen a ts) st).attempts k = some a ∧
        dictGet (todo.foldl (l2ProcessScope regen a ts) st).oracle_calls k =
          some a) := by
  intro todo
  induction todo with
  | nil =>
    intro st _ _ hfailed htemp _ hdone
    exact ⟨hfailed, htemp, fun k hk => hdone k hk (List.not_mem_nil k)⟩
  | cons k₀ rest ih =>
    intro st hnd hsub hfailed htemp htodo hdone
    obtain ⟨hk₀r, hrest⟩ := List.nodup_cons.mp hnd
    have hk₀KS : k₀ ∈ KS := hsub (List.mem_cons_self k₀ rest)
    obtain ⟨n, hn⟩ :=
      Option.ne_none_iff_exists'.mp (htemp k₀ hk₀KS)
    have htemp' : (l2ProcessScope regen a ts st k₀).temp_tree =
        dictModify st.temp_tree k₀ (fun m =>
          { m with
            L2 := regen k₀ (st.memory.get_feedback_prompt "L2" (some k₀)) }) :=
      rfl
    have hvtemp : dictGet (l2ProcessScope regen a ts st k₀).temp_tree k₀ =
        some { n with
          L2 := regen k₀ (st.memory.get_feedback_prompt "L2" (some k₀)) } := by
      rw [htemp', dictGet_modify_eq, hn]
      rfl
    have hv : (validate_l2_branches
        (l2ProcessScope regen a ts st k₀).temp_tree k₀).is_mece = false := by
      rw [validate_l2_branches_some _ _ _ hvtemp]
      exact hAF k₀ _
    have hfail' : (l2ProcessScope regen a ts st k₀).failed_l1_keys =
        st.failed_l1_keys := by
      show (if (validate_l2_branches
          (l2ProcessScope regen a ts st k₀).temp_tree k₀).is_mece = true then
            st.failed_l1_keys.erase k₀
          else st.failed_l1_keys) = st.failed_l1_keys
      rw [hv]
      simp
    have hatt' : (l2ProcessScope regen a ts st k₀).attempts =
        dictInsert st.attempts k₀ a := rfl
    have hcall' : (l2ProcessScope regen a ts st k₀).oracle_calls =
        dictInsert st.oracle_calls k₀
          (((dictGet st.oracle_calls k₀).getD 0) + 1) := rfl
    obtain ⟨hattk₀, hcallk₀⟩ := htodo k₀ hk₀KS (List.mem_cons_self k₀ rest)
    rw [List.foldl_cons]
    refine ih (l2ProcessScope regen a ts st k₀) hrest
      (fun x hx => hsub (List.mem_cons_of_mem k₀ hx))
      (hfail'.trans hfailed) ?_ ?_ ?_
    · intro k hk
      rw [htemp']
      by_cases hkk : k = k₀
      · rw [hkk, dictGet_modify_eq, hn]
        exact Option.some_ne_none _
      · rw [dictGet_modify_ne _ _ _ _ hkk]
        exact htemp k hk
    · intro k hk hkr
      have hkk : k ≠ k₀ := fun hc => hk₀r (hc ▸ hkr)
      rw [hatt', hcall', dictGet_insert_ne _ _ _ _ hkk,
          dictGet_insert_ne _ _ _ _ hkk]
      exact htodo k hk (List.mem_cons_of_mem k₀ hkr)
    · intro k hk hkr
      by_cases hkk : k = k₀
      · subst hkk
        rw [hatt', hcall', dictGet_insert_self, dictGet_insert_self, hcallk₀]
        constructor
        · rfl
        · show some (a - 1 + 1) = some a
          congr 1
          omega
      · rw [hatt', hcall', dictGet_insert_ne _ _ _ _ hkk,
            dictGet_insert_ne _ _ _ _ hkk]
        exact hdone k hk
          (fun hc => (List.mem_cons.mp hc).elim (fun h1 => hkk h1) hkr)

/-- Helper: under an always-failing oracle the L2 repair loop exits with
every scope still failing and both counters equal to the attempt budget. -/
theorem l2Loop_AF (regen : String → String → List (String × L2Node))
    (ts : String) (M : Nat) (KS : List String) (hKS : KS.Nodup)
    (hAF : ∀ k fb, (l2BranchesVerdict k (regen k fb)).is_mece = false) :
    ∀ (fuel a : Nat) (st : L2LoopState), a + fuel = M + 1 → 2 ≤ a →
      st.failed_l1_keys = KS →
      (∀ k ∈ KS, dictGet st.temp_tree k ≠ none) →
      (∀ k ∈ KS, dictGet st.attempts k = some (a - 1) ∧
                 dictGet st.oracle_calls k = some (a - 1)) →
      (l2RepairLoop regen ts M a st).failed_l1_keys = KS ∧
      (∀ k ∈ KS,
        dictGet (l2RepairLoop regen ts M a st).attempts k = some M ∧
        dictGet (l2RepairLoop regen ts M a st).oracle_calls k = some M) := by
  intro fuel
  induction fuel with
  | zero =>
    intro a st hfuel ha hfailed _ hinv
    have haM : a = M + 1 := by omega
    rw [l2RepairLoop, if_pos (Or.inr (by omega))]
    refine ⟨hfailed, fun k hk => ?_⟩
    have := hinv k hk
    have hM : a - 1 = M := by omega
    rw [hM] at this
    exact this
  | succ fuel ih =>
    intro a st hfuel ha hfailed htemp hinv
    by_cases hemp : st.failed_l1_keys.isEmpty
    · rw [l2RepairLoop, if_pos (Or.inl hemp)]
      have hKSnil : KS = [] := by
        rw [hfailed] at hemp
        exact List.isEmpty_iff.mp hemp
      subst hKSnil
      exact ⟨hfailed, fun k hk => absurd hk (List.not_mem_nil k)⟩
    · have hcond : ¬(st.failed_l1_keys.isEmpty = true ∨ M < a) := by
        rintro (h | h)
        · exact hemp h
        · omega
      rw [l2RepairLoop, if_neg hcond]
      have hround : l2RepairRound regen a ts st =
          KS.foldl (l2ProcessScope regen a ts) st := by
        unfold l2RepairRound
        rw [hfailed]
      obtain ⟨hf', ht', hi'⟩ := l2Fold_AF regen ts a (by omega) KS hAF
        KS st hKS (fun x hx => hx) hfailed htemp
        (fun k hk _ => hinv k hk)
        (fun k hk hk' => absurd hk hk')
      rw [hround]
      refine ih (a + 1) (KS.foldl (l2ProcessScope regen a ts) st)
        (by omega) (by omega) hf' ht' ?_
      intro k hk
      have := hi' k hk
      have hsimp : a + 1 - 1 = a := by omega
      rw [hsimp]
      exact this

/-- Helper: one repair round preserves the convergence invariant — after
the round every tracked scope either passed at some point (its stored
verdict is MECE) or is still in the failing list with its attempt counter
set to the round number. -/
theorem l2Fold_general (regen : String → String → List (String × L2Node))
    (ts : String) (a : Nat) (KS : List String) :
    ∀ (todo : List String) (st : L2LoopState), todo.Nodup →
      st.failed_l1_keys.Nodup →
      (∀ x ∈ todo, x ∈ st.failed_l1_keys) →
      (∀ k ∈ KS, ∃ v, dictGet st.l1_results k = some v ∧
        (v.is_mece = true ∨ (k ∈ st.failed_l1_keys ∧
          ((k ∈ todo → dictGet st.attempts k = some (a - 1)) ∧
           (k ∉ todo → dictGet st.attempts k = some a))))) →
      (todo.foldl (l2ProcessScope regen a ts) st).failed_l1_keys.Nodup ∧
      (∀ k ∈ KS, ∃ v,
        dictGet (todo.foldl (l2ProcessScope regen a ts) st).l1_results k =
          some v ∧
        (v.is_mece = true ∨
          (k ∈ (todo.foldl (l2ProcessScope regen a ts) st).failed_l1_keys ∧
           dictGet (todo.foldl (l2ProcessScope regen a ts) st).attempts k =
             some a))) := by
  intro todo
  induction todo with
  | nil =>
    intro st _ hndf _ hJ
    refine ⟨hndf, fun k hk => ?_⟩
    obtain ⟨v, hv, hc⟩ := hJ k hk
    refine ⟨v, hv, ?_⟩
    rcases hc with hc | ⟨hmem, -, hnot⟩
    · exact Or.inl hc
    · exact Or.inr ⟨hmem, hnot (List.not_mem_nil k)⟩
  | cons k₀ rest ih =>
    intro st hnd hndf hsub hJ
    obtain ⟨hk₀r, hrest⟩ := List.nodup_cons.mp hnd
    have hk₀f : k₀ ∈ st.failed_l1_keys := hsub k₀ (List.mem_cons_self k₀ rest)
    have hres₁ : (l2ProcessScope regen a ts st k₀).l1_results =
        dictInsert st.l1_results k₀
          (validate_l2_branches (l2ProcessScope regen a ts st k₀).temp_tree k₀) :=
      rfl
    have hatt₁ : (l2ProcessScope regen a ts st k₀).attempts =
        dictInsert st.attempts k₀ a := rfl
    have hfail₁ : (l2ProcessScope regen a ts st k₀).failed_l1_keys =
        (if (validate_l2_branches
            (l2ProcessScope regen a ts st k₀).temp_tree k₀).is_mece = true then
          st.failed_l1_keys.erase k₀
        else st.failed_l1_keys) := rfl
    have hndf₁ : (l2ProcessScope regen a ts st k₀).failed_l1_keys.Nodup := by
      rw [hfail₁]
      split
      · exact hndf.erase k₀
      · exact hndf
    have hmem₁ : ∀ x, x ≠ k₀ →
        (x ∈ (l2ProcessScope regen a ts st k₀).failed_l1_keys ↔
         x ∈ st.failed_l1_keys) := by
      intro x hx
      rw [hfail₁]
      split
      · exact List.mem_erase_of_ne hx
      · exact Iff.rfl
    rw [List.foldl_cons]
    refine ih (l2ProcessScope regen a ts st k₀) hrest hndf₁ ?_ ?_
    · intro x hx
      have hxne : x ≠ k₀ := fun hc => hk₀r (hc ▸ hx)
      exact (hmem₁ x hxne).mpr (hsub x (List.mem_cons_of_mem k₀ hx))
    · intro k hk
      by_cases hkk : k = k₀
      · subst hkk
        refine ⟨validate_l2_branches
            (l2ProcessScope regen a ts st k).temp_tree k, ?_, ?_⟩
        · rw [hres₁, dictGet_insert_self]
        · by_cases hm : (validate_l2_branches
              (l2ProcessScope regen a ts st k).temp_tree k).is_mece = true
          · exact Or.inl hm
          · refine Or.inr ⟨?_, ⟨fun hc => absurd hc hk₀r, fun _ => ?_⟩⟩
            · rw [hfail₁, if_neg hm]
              exact hk₀f
            · rw [hatt₁, dictGet_insert_self]
      · obtain ⟨v, hv, hc⟩ := hJ k hk
        refine ⟨v, ?_, ?_⟩
        · rw [hres₁, dictGet_insert_ne _ _ _ _ hkk]
          exact hv
        · rcases hc with hc | ⟨hmem, hclin, hclout⟩
          · exact Or.inl hc
          · refine Or.inr ⟨(hmem₁ k hkk).mpr hmem, ⟨?_, ?_⟩⟩
            · intro hkr
              rw [hatt₁, dictGet_insert_ne _ _ _ _ hkk]
              exact hclin (List.mem_cons_of_mem k₀ hkr)
            · intro hkr
              rw [hatt₁, dictGet_insert_ne _ _ _ _ hkk]
              exact hclout
                (fun hc => (List.mem_cons.mp hc).elim (fun h1 => hkk h1) hkr)

/-- Helper: when the L2 repair loop exits, every tracked scope either holds
a passing verdict or has its attempt counter at the budget. -/
theorem l2Loop_general (regen : String → String → List (String × L2Node))
    (ts : String) (M : Nat) (KS : List String) :
    ∀ (fuel a : Nat) (st : L2LoopState), a + fuel = M + 1 → 2 ≤ a →
      st.failed_l1_keys.Nodup →
      (∀ k ∈ KS, ∃ v, dictGet st.l1_results k = some v ∧
        (v.is_mece = true ∨ (k ∈ st.failed_l1_keys ∧
          dictGet st.attempts k = some (a - 1)))) →
      ∀ k ∈ KS, ∃ v,
        dictGet (l2RepairLoop regen ts M a st).l1_results k = some v ∧
        (v.is_mece = true ∨
         dictGet (l2RepairLoop regen ts M a st).attempts k = some M) := by
  intro fuel
  induction fuel with
  | zero =>
    intro a st hfuel ha hndf hINV k hk
    rw [l2RepairLoop, if_pos (Or.inr (by omega))]
    obtain ⟨v, hv, hc⟩ := hINV k hk
    refine ⟨v, hv, ?_⟩
    rcases hc with hc | ⟨-, hatt⟩
    · exact Or.inl hc
    · have : a - 1 = M := by omega
      exact Or.inr (this ▸ hatt)
  | succ fuel ih =>
    intro a st hfuel ha hndf hINV
    by_cases hemp : st.failed_l1_keys.isEmpty
    · intro k hk
      rw [l2RepairLoop, if_pos (Or.inl hemp)]
      obtain ⟨v, hv, hc⟩ := hINV k hk
      refine ⟨v, hv, ?_⟩
      rcases hc with hc | ⟨hmem, -⟩
      · exact Or.inl hc
      · rw [List.isEmpty_iff.mp hemp] at hmem
        exact absurd hmem (List.not_mem_nil k)
    · have hcond : ¬(st.failed_l1_keys.isEmpty = true ∨ M < a) := by
        rintro (h | h)
        · exact hemp h
        · omega
      rw [l2RepairLoop, if_neg hcond]
      have hJ : ∀ k ∈ KS, ∃ v, dictGet st.l1_results k = some v ∧
          (v.is_mece = true ∨ (k ∈ st.failed_l1_keys ∧
            ((k ∈ st.failed_l1_keys → dictGet st.attempts k = some (a - 1)) ∧
             (k ∉ st.failed_l1_keys → dictGet st.attempts k = some a)))) := by
        intro k hk
        obtain ⟨v, hv, hc⟩ := hINV k hk
        refine ⟨v, hv, ?_⟩
        rcases hc with hc | ⟨hmem, hatt⟩
        · exact Or.inl hc
        · exact Or.inr ⟨hmem, ⟨fun _ => hatt, fun hc => absurd hmem hc⟩⟩
      obtain ⟨hndf', hJ'⟩ := l2Fold_general regen ts a KS
        st.failed_l1_keys st hndf hndf (fun x hx => hx) hJ
      have hround : l2RepairRound regen a ts st =
          st.failed_l1_keys.foldl (l2ProcessScope regen a ts) st := rfl
      rw [hround]
      refine ih (a + 1) _ (by omega) (by omega) hndf' ?_
      intro k hk
      obtain ⟨v, hv, hc⟩ := hJ' k hk
      refine ⟨v, hv, ?_⟩
      rcases hc with hc | ⟨hmem, hatt⟩
      · exact Or.inl hc
      · have hsimp : a + 1 - 1 = a := by omega
        exact Or.inr ⟨hmem, hsimp ▸ hatt⟩

/-- Helper: end-to-end facts about the L2 batch generator under an
always-failing oracle. -/
theorem l2Batch_AF_full (fw : List (String × FWNode))
    (initGen : List (String × List (String × L2Node)))
    (regen : String → String → List (String × L2Node)) (ts : String) (M : Nat)
    (hnd : (fw.map Prod.fst).Nodup) (hM : 1 ≤ M)
    (hInit : ∀ k ∈ fw.map Prod.fst,
      (validate_l2_branches (buildTempTreeL2 fw initGen) k).is_mece = false)
    (hAF : ∀ k fb, (l2BranchesVerdict k (regen k fb)).is_mece = false) :
    (l2BatchFinalState fw initGen regen ts M).failed_l1_keys =
      fw.map Prod.fst ∧
    (∀ k ∈ fw.map Prod.fst,
      dictGet (l2BatchFinalState fw initGen regen ts M).attempts k = some M ∧
      dictGet (l2BatchFinalState fw initGen regen ts M).oracle_calls k =
        some M) ∧
    (generate_entire_tree_l2_branches_batch_with_validation fw initGen regen
        ts M).2.all_passed = (fw.map Prod.fst).isEmpty := by
  have hinit_temp : (l2LoopInit fw initGen ts).temp_tree =
      buildTempTreeL2 fw initGen :=
    l2InitScan_temp ts (fw.map Prod.fst) _
  have hinit_failed : (l2LoopInit fw initGen ts).failed_l1_keys =
      fw.map Prod.fst := by
    unfold l2LoopInit
    rw [l2InitScan_failed]
    show [] ++ List.filter _ (fw.map Prod.fst) = fw.map Prod.fst
    rw [List.nil_append]
    apply List.filter_eq_self.mpr
    intro k hk
    show (!(validate_l2_branches _ k).is_mece) = true
    rw [hInit k hk]
    rfl
  have hinit_entries := l2InitScan_entries ts (fw.map Prod.fst)
    { l2_branches := initGen,
      temp_tree := buildTempTreeL2 fw initGen,
      l1_results := [],
      attempts := [],
      memory := { failures := [] },
      failed_l1_keys := [],
      oracle_calls := fw.map fun p => (p.1, 1) } hnd
  have hinit_calls : (l2LoopInit fw initGen ts).oracle_calls =
      fw.map fun p => (p.1, 1) :=
    l2InitScan_calls ts (fw.map Prod.fst) _
  have hloop := l2Loop_AF regen ts M (fw.map Prod.fst) hnd hAF (M - 1) 2
    (l2LoopInit fw initGen ts) (by omega) (by omega) hinit_failed
    (by
      intro k hk
      rw [hinit_temp]
      exact buildTempTreeL2_mem fw initGen k hk)
    (by
      intro k hk
      constructor
      · exact (hinit_entries.2 k hk).2
      · rw [hinit_calls]
        exact initCalls_mem fw k hk)
  obtain ⟨hf, hac⟩ := hloop
  refine ⟨hf, hac, ?_⟩
  show (l2RepairLoop regen ts M 2
    (l2LoopInit fw initGen ts)).failed_l1_keys.isEmpty = _
  rw [hf]

/-- Helper: for any oracle, every scope of the L2 batch generator ends with
a passing stored verdict or an attempt counter equal to the budget. -/
theorem l2Batch_general_full (fw : List (String × FWNode))
    (initGen : List (String × List (String × L2Node)))
    (regen : String → String → List (String × L2Node)) (ts : String) (M : Nat)
    (hnd : (fw.map Prod.fst).Nodup) (hM : 1 ≤ M) :
    ∀ k ∈ fw.map Prod.fst, ∃ v,
      dictGet (l2BatchFinalState fw initGen regen ts M).l1_results k =
        some v ∧
      (v.is_mece = true ∨
       dictGet (l2BatchFinalState fw initGen regen ts M).attempts k =
         some M) := by
  have hinit_temp : (l2LoopInit fw initGen ts).temp_tree =
      buildTempTreeL2 fw initGen :=
    l2InitScan_temp ts (fw.map Prod.fst) _
  have hinit_failed : (l2LoopInit fw initGen ts).failed_l1_keys =
      [] ++ (fw.map Prod.fst).filter
        (fun k => !(validate_l2_branches (buildTempTreeL2 fw initGen) k).is_mece) := by
    unfold l2LoopInit
    rw [l2InitScan_failed]
  have hinit_entries := l2InitScan_entries ts (fw.map Prod.fst)
    { l2_branches := initGen,
      temp_tree := buildTempTreeL2 fw initGen,
      l1_results := [],
      attempts := [],
      memory := { failures := [] },
      failed_l1_keys := [],
      oracle_calls := fw.map fun p => (p.1, 1) } hnd
  apply l2Loop_general regen ts M (fw.map Prod.fst) (M - 1) 2
    (l2LoopInit fw initGen ts) (by omega) (by omega)
  · rw [hinit_failed, List.nil_append]
    exact hnd.filter _
  · intro k hk
    refine ⟨validate_l2_branches (buildTempTreeL2 fw initGen) k, ?_, ?_⟩
    · exact (hinit_entries.2 k hk).1
    · by_cases hm : (validate_l2_branches (buildTempTreeL2 fw initGen) k).is_mece
      · exact Or.inl hm
      · refine Or.inr ⟨?_, ?_⟩
        · rw [hinit_failed, List.nil_append]
          apply List.mem_filter.mpr
          exact ⟨hk, by simp [hm]⟩
        · exact (hinit_entries.2 k hk).2

/-- Helper: resolving both parent scopes reduces the leaf validator to its
verdict body. -/
theorem validate_l3_leaves_some (t : HTree) (k1 k2 : String) (n : L1Node)
    (b : L2Node) (h1 : dictGet t k1 = some n) (h2 : dictGet n.L2 k2 = some b) :
    validate_l3_leaves t k1 k2 = l3LeavesVerdict k1 k2 b.L3 := by
  simp only [validate_l3_leaves, h1, h2]

/-- Helper: the initial L3 scan never touches the temporary tree. -/
theorem l3InitScan_temp (l1_key ts : String) :
    ∀ (todo : List String) (st : L3LoopState),
      (todo.foldl (l3InitStep l1_key ts) st).temp_tree = st.temp_tree := by
  intro todo
  induction todo with
  | nil => intro st; rfl
  | cons k rest ih => intro st; exact ih (l3InitStep l1_key ts st k)

/-- Helper: the initial L3 scan never touches the ghost call counters. -/
theorem l3InitScan_calls (l1_key ts : String) :
    ∀ (todo : List String) (st : L3LoopState),
      (todo.foldl (l3InitStep l1_key ts) st).oracle_calls = st.oracle_calls := by
  intro todo
  induction todo with
  | nil => intro st; rfl
  | cons k rest ih => intro st; exact ih (l3InitStep l1_key ts st k)

/-- Helper: the initial L3 scan appends exactly the failing keys, in order. -/
theorem l3InitScan_failed (l1_key ts : String) :
    ∀ (todo : List String) (st : L3LoopState),
      (todo.foldl (l3InitStep l1_key ts) st).failed_l2_keys =
        st.failed_l2_keys ++ todo.filter
          (fun k => !(validate_l3_leaves st.temp_tree l1_key k).is_mece) := by
  intro todo
  induction todo with
  | nil => intro st; simp
  | cons k rest ih =>
    intro st
    have hstepf : (l3InitStep l1_key ts st k).failed_l2_keys =
        (if (validate_l3_leaves st.temp_tree l1_key k).is_mece then
          st.failed_l2_keys
         else st.failed_l2_keys ++ [k]) := rfl
    have hstept : (l3InitStep l1_key ts st k).temp_tree = st.temp_tree := rfl
    rw [List.foldl_cons, ih (l3InitStep l1_key ts st k), hstepf, hstept,
        List.filter_cons]
    by_cases hv : (validate_l3_leaves st.temp_tree l1_key k).is_mece
    · rw [if_pos hv]
      have hb : (!(validate_l3_leaves st.temp_tree l1_key k).is_mece) = false := by
        simp [hv]
      rw [hb]
      simp
    · rw [if_neg hv]
      have hb : (!(validate_l3_leaves st.temp_tree l1_key k).is_mece) = true := by
        simp [hv]
      rw [hb]
      simp

/-- Helper: the initial L3 scan records, for every scanned key, the verdict
against the (unchanging) temporary tree and an attempt count of 1. -/
theorem l3InitScan_entries (l1_key ts : String) :
    ∀ (todo : List String) (st : L3LoopState), todo.Nodup →
      (∀ k, k ∉ todo →
        dictGet (todo.foldl (l3InitStep l1_key ts) st).l2_results k =
          dictGet st.l2_results k ∧
        dictGet (todo.foldl (l3InitStep l1_key ts) st).attempts k =
          dictGet st.attempts k) ∧
      (∀ k ∈ todo,
        dictGet (todo.foldl (l3InitStep l1_key ts) st).l2_results k =
          some (validate_l3_leaves st.temp_tree l1_key k) ∧
        dictGet (todo.foldl (l3InitStep l1_key ts) st).attempts k = some 1) := by
  intro todo
  induction todo with
  | nil =>
    intro st _
    exact ⟨fun k _ => ⟨rfl, rfl⟩, fun k hk => absurd hk (List.not_mem_nil k)⟩
  | cons k₀ rest ih =>
    intro st hnd
    obtain ⟨hk₀, hrest⟩ := List.nodup_cons.mp hnd
    have hres : (l3InitStep l1_key ts st k₀).l2_results =
        dictInsert st.l2_results k₀
          (validate_l3_leaves st.temp_tree l1_key k₀) := rfl
    have hatt : (l3InitStep l1_key ts st k₀).attempts =
        dictInsert st.attempts k₀ 1 := rfl
    have htemp : (l3InitStep l1_key ts st k₀).temp_tree = st.temp_tree := rfl
    obtain ⟨hout, hin⟩ := ih (l3InitStep l1_key ts st k₀) hrest
    constructor
    · intro k hk
      have hne : k ≠ k₀ := fun hc => hk (hc ▸ List.mem_cons_self k₀ rest)
      have hnr : k ∉ rest := fun hc => hk (List.mem_cons_of_mem k₀ hc)
      obtain ⟨h1, h2⟩ := hout k hnr
      rw [List.foldl_cons, h1, h2, hres, hatt,
          dictGet_insert_ne _ _ _ _ hne, dictGet_insert_ne _ _ _ _ hne]
      exact ⟨rfl, rfl⟩
    · intro k hk
      rcases List.mem_cons.mp hk with rfl | hk
      · obtain ⟨h1, h2⟩ := hout k hk₀
        rw [List.foldl_cons, h1, h2, hres, hatt,
            dictGet_insert_self, dictGet_insert_self]
        exact ⟨rfl, rfl⟩
      · obtain ⟨h1, h2⟩ := hin k hk
        rw [List.foldl_cons, h1, h2, htemp]
        exact ⟨rfl, rfl⟩

/-- Helper: the built one-topic L3 tree holds the topic node with every
template branch key present. -/
theorem buildTempTreeL3_mem (l1_key : String) (l1_data : L1Tpl)
    (initGen : List (String × List Leaf)) :
    ∃ n, dictGet (buildTempTreeL3 l1_key l1_data initGen) l1_key = some n ∧
      ∀ k ∈ l1_data.L2_branches.map Prod.fst, dictGet n.L2 k ≠ none := by
  refine ⟨{ label := some (l1_data.label.getD l1_key),
            L2 := l1_data.L2_branches.foldl
              (fun acc p =>
                dictInsert acc p.1
                  { label := some (p.2.label.getD p.1), question := none,
                    L3 := buildL3 ((dictGet initGen p.1).getD []) }) [] },
          ?_, ?_⟩
  · show dictGet [(l1_key, _)] l1_key = some _
    simp [dictGet]
  · intro k hk
    exact dictGet_foldl_insert_ne_none _ l1_data.L2_branches [] k (Or.inl hk)

/-- Helper: an always-failing L3 regeneration round keeps every scope
failing and advances every counter to the round number. -/
theorem l3Fold_AF (l1_key : String) (regen : String → String → List Leaf)
    (ts : String) (a : Nat) (ha : 1 ≤ a) (KS : List String)
    (hAF : ∀ k fb,
      (l3LeavesVerdict l1_key k (buildL3 (regen k fb))).is_mece = false) :
    ∀ (todo : List String) (st : L3LoopState), todo.Nodup → todo ⊆ KS →
      st.failed_l2_keys = KS →
      (∃ n, dictGet st.temp_tree l1_key = some n ∧
        ∀ k ∈ KS, dictGet n.L2 k ≠ none) →
      (∀ k ∈ KS, k ∈ todo →
        dictGet st.attempts k = some (a - 1) ∧
        dictGet st.oracle_calls k = some (a - 1)) →
      (∀ k ∈ KS, k ∉ todo →
        dictGet st.attempts k = some a ∧ dictGet st.oracle_calls k = some a) →
      (todo.foldl (l3ProcessScope l1_key regen a ts) st).failed_l2_keys = KS ∧
      (∃ n, dictGet
          (todo.foldl (l3ProcessScope l1_key regen a ts) st).temp_tree l1_key =
          some n ∧ ∀ k ∈ KS, dictGet n.L2 k ≠ none) ∧
      (∀ k ∈ KS,
        dictGet (todo.foldl (l3ProcessScope l1_key regen a ts) st).attempts k =
          some a ∧
        dictGet
          (todo.foldl (l3ProcessScope l1_key regen a ts) st).oracle_calls k =
          some a) := by
  intro todo
  induction todo with
  | nil =>
    intro st _ _ hfailed htemp _ hdone
    exact ⟨hfailed, htemp, fun k hk => hdone k hk (List.not_mem_nil k)⟩
  | cons k₀ rest ih =>
    intro st hnd hsub hfailed htemp htodo hdone
    obtain ⟨hk₀r, hrest⟩ := List.nodup_cons.mp hnd
    have hk₀KS : k₀ ∈ KS := hsub (List.mem_cons_self k₀ rest)
    obtain ⟨n, hn, hnL2⟩ := htemp
    obtain ⟨b, hb⟩ := Option.ne_none_iff_exists'.mp (hnL2 k₀ hk₀KS)
    have htemp' : (l3ProcessScope l1_key regen a ts st k₀).temp_tree =
        dictModify st.temp_tree l1_key (fun m =>
          { m with L2 := dictModify m.L2 k₀ (fun br =>
              { br with L3 := buildL3 (regen k₀
                  (st.memory.get_feedback_prompt "L3"
                    (some (l1_key ++ "." ++ k₀)))) }) }) := rfl
    have hvtop : dictGet (l3ProcessScope l1_key regen a ts st k₀).temp_tree
        l1_key = some { n with L2 := dictModify n.L2 k₀ (fun br =>
          { br with L3 := buildL3 (regen k₀
              (st.memory.get_feedback_prompt "L3"
                (some (l1_key ++ "." ++ k₀)))) }) } := by
      rw [htemp', dictGet_modify_eq, hn]
      rfl
    have hvin : dictGet (dictModify n.L2 k₀ (fun br =>
        { br with L3 := buildL3 (regen k₀
            (st.memory.get_feedback_prompt "L3"
              (some (l1_key ++ "." ++ k₀)))) })) k₀ =
        some { b with L3 := buildL3 (regen k₀
            (st.memory.get_feedback_prompt "L3"
              (some (l1_key ++ "." ++ k₀)))) } := by
      rw [dictGet_modify_eq, hb]
      rfl
    have hv : (validate_l3_leaves
        (l3ProcessScope l1_key regen a ts st k₀).temp_tree l1_key k₀).is_mece =
        false := by
      rw [validate_l3_leaves_some _ _ _ _ _ hvtop hvin]
      exact hAF k₀ _
    have hfail' : (l3ProcessScope l1_key regen a ts st k₀).failed_l2_keys =
        st.failed_l2_keys := by
      show (if (validate_l3_leaves
          (l3ProcessScope l1_key regen a ts st k₀).temp_tree l1_key
          k₀).is_mece = true then
            st.failed_l2_keys.erase k₀
          else st.failed_l2_keys) = st.failed_l2_keys
      rw [hv]
      simp
    have hatt' : (l3ProcessScope l1_key regen a ts st k₀).attempts =
        dictInsert st.attempts k₀ a := rfl
    have hcall' : (l3ProcessScope l1_key regen a ts st k₀).oracle_calls =
        dictInsert st.oracle_calls k₀
          (((dictGet st.oracle_calls k₀).getD 0) + 1) := rfl
    obtain ⟨hattk₀, hcallk₀⟩ := htodo k₀ hk₀KS (List.mem_cons_self k₀ rest)
    rw [List.foldl_cons]
    refine ih (l3ProcessScope l1_key regen a ts st k₀) hrest
      (fun x hx => hsub (List.mem_cons_of_mem k₀ hx))
      (hfail'.trans hfailed) ?_ ?_ ?_
    · refine ⟨_, hvtop, ?_⟩
      intro k hk
      show dictGet (dictModify n.L2 k₀ _) k ≠ none
      by_cases hkk : k = k₀
      · rw [hkk, hvin]
        exact Option.some_ne_none _
      · rw [dictGet_modify_ne _ _ _ _ hkk]
        exact hnL2 k hk
    · intro k hk hkr
      have hkk : k ≠ k₀ := fun hc => hk₀r (hc ▸ hkr)
      rw [hatt', hcall', dictGet_insert_ne _ _ _ _ hkk,
          dictGet_insert_ne _ _ _ _ hkk]
      exact htodo k hk (List.mem_cons_of_mem k₀ hkr)
    · intro k hk hkr
      by_cases hkk : k = k₀
      · subst hkk
        rw [hatt', hcall', dictGet_insert_self, dictGet_insert_self, hcallk₀]
        constructor
        · rfl
        · show some (a - 1 + 1) = some a
          congr 1
          omega
      · rw [hatt', hcall', dictGet_insert_ne _ _ _ _ hkk,
            dictGet_insert_ne _ _ _ _ hkk]
        exact hdone k hk
          (fun hc => (List.mem_cons.mp hc).elim (fun h1 => hkk h1) hkr)

/-- Helper: under an always-failing oracle the L3 repair loop exits with
every scope still failing and both counters equal to the attempt budget. -/
theorem l3Loop_AF (l1_key : String) (regen : String → String → List Leaf)
    (ts : String) (M : Nat) (KS : List String) (hKS : KS.Nodup)
    (hAF : ∀ k fb,
      (l3LeavesVerdict l1_key k (buildL3 (regen k fb))).is_mece = false) :
    ∀ (fuel a : Nat) (st : L3LoopState), a + fuel = M + 1 → 2 ≤ a →
      st.failed_l2_keys = KS →
      (∃ n, dictGet st.temp_tree l1_key = some n ∧
        ∀ k ∈ KS, dictGet n.L2 k ≠ none) →
      (∀ k ∈ KS, dictGet st.attempts k = some (a - 1) ∧
                 dictGet st.oracle_calls k = some (a - 1)) →
      (l3RepairLoop l1_key regen ts M a st).failed_l2_keys = KS ∧
      (∀ k ∈ KS,
        dictGet (l3RepairLoop l1_key regen ts M a st).attempts k = some M ∧
        dictGet (l3RepairLoop l1_key regen ts M a st).oracle_calls k =
          some M) := by
  intro fuel
  induction fuel with
  | zero =>
    intro a st hfuel ha hfailed _ hinv
    rw [l3RepairLoop, if_pos (Or.inr (by omega))]
    refine ⟨hfailed, fun k hk => ?_⟩
    have := hinv k hk
    have hM : a - 1 = M := by omega
    rw [hM] at this
    exact this
  | succ fuel ih =>
    intro a st hfuel ha hfailed htemp hinv
    by_cases hemp : st.failed_l2_keys.isEmpty
    · rw [l3RepairLoop, if_pos (Or.inl hemp)]
      have hKSnil : KS = [] := by
        rw [hfailed] at hemp
        exact List.isEmpty_iff.mp hemp
      subst hKSnil
      exact ⟨hfailed, fun k hk => absurd hk (List.not_mem_nil k)⟩
    · have hcond : ¬(st.failed_l2_keys.isEmpty = true ∨ M < a) := by
        rintro (h | h)
        · exact hemp h
        · omega
      rw [l3RepairLoop, if_neg hcond]
      have hround : l3RepairRound l1_key regen a ts st =
          KS.foldl (l3ProcessScope l1_key regen a ts) st := by
        unfold l3RepairRound
        rw [hfailed]
      obtain ⟨hf', ht', hi'⟩ := l3Fold_AF l1_key regen ts a (by omega) KS hAF
        KS st hKS (fun x hx => hx) hfailed htemp
        (fun k hk _ => hinv k hk)
        (fun k hk hk' => absurd hk hk')
      rw [hround]
      refine ih (a + 1) (KS.foldl (l3ProcessScope l1_key regen a ts) st)
        (by omega) (by omega) hf' ht' ?_
      intro k hk
      have := hi' k hk
      have hsimp : a + 1 - 1 = a := by omega
      rw [hsimp]
      exact this

/-- Helper: one L3 repair round preserves the convergence invariant. -/
theorem l3Fold_general (l1_key : String) (regen : String → String → List Leaf)
    (ts : String) (a : Nat) (KS : List String) :
    ∀ (todo : List String) (st : L3LoopState), todo.Nodup →
      st.failed_l2_keys.Nodup →
      (∀ x ∈ todo, x ∈ st.failed_l2_keys) →
      (∀ k ∈ KS, ∃ v, dictGet st.l2_results k = some v ∧
        (v.is_mece = true ∨ (k ∈ st.failed_l2_keys ∧
          ((k ∈ todo → dictGet st.attempts k = some (a - 1)) ∧
           (k ∉ todo → dictGet st.attempts k = some a))))) →
      (todo.foldl (l3ProcessScope l1_key regen a ts) st).failed_l2_keys.Nodup ∧
      (∀ k ∈ KS, ∃ v,
        dictGet (todo.foldl (l3ProcessScope l1_key regen a ts) st).l2_results
          k = some v ∧
        (v.is_mece = true ∨
          (k ∈ (todo.foldl
              (l3ProcessScope l1_key regen a ts) st).failed_l2_keys ∧
           dictGet (todo.foldl (l3ProcessScope l1_key regen a ts) st).attempts
             k = some a))) := by
  intro todo
  induction todo with
  | nil =>
    intro st _ hndf _ hJ
    refine ⟨hndf, fun k hk => ?_⟩
    obtain ⟨v, hv, hc⟩ := hJ k hk
    refine ⟨v, hv, ?_⟩
    rcases hc with hc | ⟨hmem, -, hnot⟩
    · exact Or.inl hc
    · exact Or.inr ⟨hmem, hnot (List.not_mem_nil k)⟩
  | cons k₀ rest ih =>
    intro st hnd hndf hsub hJ
    obtain ⟨hk₀r, hrest⟩ := List.nodup_cons.mp hnd
    have hk₀f : k₀ ∈ st.failed_l2_keys := hsub k₀ (List.mem_cons_self k₀ rest)
    have hres₁ : (l3ProcessScope l1_key regen a ts st k₀).l2_results =
        dictInsert st.l2_results k₀
          (validate_l3_leaves
            (l3ProcessScope l1_key regen a ts st k₀).temp_tree l1_key k₀) :=
      rfl
    have hatt₁ : (l3ProcessScope l1_key regen a ts st k₀).attempts =
        dictInsert st.attempts k₀ a := rfl
    have hfail₁ : (l3ProcessScope l1_key regen a ts st k₀).failed_l2_keys =
        (if (validate_l3_leaves
            (l3ProcessScope l1_key regen a ts st k₀).temp_tree l1_key
            k₀).is_mece = true then
          st.failed_l2_keys.erase k₀
        else st.failed_l2_keys) := rfl
    have hndf₁ : (l3ProcessScope l1_key regen a ts st k₀).failed_l2_keys.Nodup := by
      rw [hfail₁]
      split
      · exact hndf.erase k₀
      · exact hndf
    have hmem₁ : ∀ x, x ≠ k₀ →
        (x ∈ (l3ProcessScope l1_key regen a ts st k₀).failed_l2_keys ↔
         x ∈ st.failed_l2_keys) := by
      intro x hx
      rw [hfail₁]
      split
      · exact List.mem_erase_of_ne hx
      · exact Iff.rfl
    rw [List.foldl_cons]
    refine ih (l3ProcessScope l1_key regen a ts st k₀) hrest hndf₁ ?_ ?_
    · intro x hx
      have hxne : x ≠ k₀ := fun hc => hk₀r (hc ▸ hx)
      exact (hmem₁ x hxne).mpr (hsub x (List.mem_cons_of_mem k₀ hx))
    · intro k hk
      by_cases hkk : k = k₀
      · subst hkk
        refine ⟨validate_l3_leaves
            (l3ProcessScope l1_key regen a ts st k).temp_tree l1_key k, ?_, ?_⟩
        · rw [hres₁, dictGet_insert_self]
        · by_cases hm : (validate_l3_leaves
              (l3ProcessScope l1_key regen a ts st k).temp_tree l1_key
              k).is_mece = true
          · exact Or.inl hm
          · refine Or.inr ⟨?_, ⟨fun hc => absurd hc hk₀r, fun _ => ?_⟩⟩
            · rw [hfail₁, if_neg hm]
              exact hk₀f
            · rw [hatt₁, dictGet_insert_self]
      · obtain ⟨v, hv, hc⟩ := hJ k hk
        refine ⟨v, ?_, ?_⟩
        · rw [hres₁, dictGet_insert_ne _ _ _ _ hkk]
          exact hv
        · rcases hc with hc | ⟨hmem, hclin, hclout⟩
          · exact Or.inl hc
          · refine Or.inr ⟨(hmem₁ k hkk).mpr hmem, ⟨?_, ?_⟩⟩
            · intro hkr
              rw [hatt₁, dictGet_insert_ne _ _ _ _ hkk]
              exact hclin (List.mem_cons_of_mem k₀ hkr)
            · intro hkr
              rw [hatt₁, dictGet_insert_ne _ _ _ _ hkk]
              exact hclout
                (fun hc => (List.mem_cons.mp hc).elim (fun h1 => hkk h1) hkr)

/-- Helper: when the L3 repair loop exits, every tracked scope either holds
a passing verdict or has its attempt counter at the budget. -/
theorem l3Loop_general (l1_key : String) (regen : String → String → List Leaf)
    (ts : String) (M : Nat) (KS : List String) :
    ∀ (fuel a : Nat) (st : L3LoopState), a + fuel = M + 1 → 2 ≤ a →
      st.failed_l2_keys.Nodup →
      (∀ k ∈ KS, ∃ v, dictGet st.l2_results k = some v ∧
        (v.is_mece = true ∨ (k ∈ st.failed_l2_keys ∧
          dictGet st.attempts k = some (a - 1)))) →
      ∀ k ∈ KS, ∃ v,
        dictGet (l3RepairLoop l1_key regen ts M a st).l2_results k = some v ∧
        (v.is_mece = true ∨
         dictGet (l3RepairLoop l1_key regen ts M a st).attempts k = some M) := by
  intro fuel
  induction fuel with
  | zero =>
    intro a st hfuel ha hndf hINV k hk
    rw [l3RepairLoop, if_pos (Or.inr (by omega))]
    obtain ⟨v, hv, hc⟩ := hINV k hk
    refine ⟨v, hv, ?_⟩
    rcases hc with hc | ⟨-, hatt⟩
    · exact Or.inl hc
    · have : a - 1 = M := by omega
      exact Or.inr (this ▸ hatt)
  | succ fuel ih =>
    intro a st hfuel ha hndf hINV
    by_cases hemp : st.failed_l2_keys.isEmpty
    · intro k hk
      rw [l3RepairLoop, if_pos (Or.inl hemp)]
      obtain ⟨v, hv, hc⟩ := hINV k hk
      refine ⟨v, hv, ?_⟩
      rcases hc with hc | ⟨hmem, -⟩
      · exact Or.inl hc
      · rw [List.isEmpty_iff.mp hemp] at hmem
        exact absurd hmem (List.not_mem_nil k)
    · have hcond : ¬(st.failed_l2_keys.isEmpty = true ∨ M < a) := by
        rintro (h | h)
        · exact hemp h
        · omega
      rw [l3RepairLoop, if_neg hcond]
      have hJ : ∀ k ∈ KS, ∃ v, dictGet st.l2_results k = some v ∧
          (v.is_mece = true ∨ (k ∈ st.failed_l2_keys ∧
            ((k ∈ st.failed_l2_keys → dictGet st.attempts k = some (a - 1)) ∧
             (k ∉ st.failed_l2_keys → dictGet st.attempts k = some a)))) := by
        intro k hk
        obtain ⟨v, hv, hc⟩ := hINV k hk
        refine ⟨v, hv, ?_⟩
        rcases hc with hc | ⟨hmem, hatt⟩
        · exact Or.inl hc
        · exact Or.inr ⟨hmem, ⟨fun _ => hatt, fun hc => absurd hmem hc⟩⟩
      obtain ⟨hndf', hJ'⟩ := l3Fold_general l1_key regen ts a KS
        st.failed_l2_keys st hndf hndf (fun x hx => hx) hJ
      have hround : l3RepairRound l1_key regen a ts st =
          st.failed_l2_keys.foldl (l3ProcessScope l1_key regen a ts) st := rfl
      rw [hround]
      refine ih (a + 1) _ (by omega) (by omega) hndf' ?_
      intro k hk
      obtain ⟨v, hv, hc⟩ := hJ' k hk
      refine ⟨v, hv, ?_⟩
      rcases hc with hc | ⟨hmem, hatt⟩
      · exact Or.inl hc
      · have hsimp : a + 1 - 1 = a := by omega
        exact Or.inr ⟨hmem, hsimp ▸ hatt⟩

/-- Helper: end-to-end facts about the L3 batch generator under an
always-failing oracle. -/
theorem l3Batch_AF_full (l1_key : String) (l1_data : L1Tpl)
    (initGen : List (String × List Leaf)) (regen : String → String → List Leaf)
    (ts : String) (M : Nat)
    (hnd : (l1_data.L2_branches.map Prod.fst).Nodup) (hM : 1 ≤ M)
    (hInit : ∀ k ∈ l1_data.L2_branches.map Prod.fst,
      (validate_l3_leaves (buildTempTreeL3 l1_key l1_data initGen) l1_key
        k).is_mece = false)
    (hAF : ∀ k fb,
      (l3LeavesVerdict l1_key k (buildL3 (regen k fb))).is_mece = false) :
    (l3BatchFinalState l1_key l1_data initGen regen ts M).failed_l2_keys =
      l1_data.L2_branches.map Prod.fst ∧
    (∀ k ∈ l1_data.L2_branches.map Prod.fst,
      dictGet (l3BatchFinalState l1_key l1_data initGen regen ts M).attempts
        k = some M ∧
      dictGet
        (l3BatchFinalState l1_key l1_data initGen regen ts M).oracle_calls k =
        some M) ∧
    (generate_l1_category_batch_with_validation l1_key l1_data initGen regen
        ts M).2.all_passed = (l1_data.L2_branches.map Prod.fst).isEmpty := by
  have hinit_temp : (l3LoopInit l1_key l1_data initGen ts).temp_tree =
      buildTempTreeL3 l1_key l1_data initGen :=
    l3InitScan_temp l1_key ts (l1_data.L2_branches.map Prod.fst) _
  have hinit_failed : (l3LoopInit l1_key l1_data initGen ts).failed_l2_keys =
      l1_data.L2_branches.map Prod.fst := by
    unfold l3LoopInit
    rw [l3InitScan_failed]
    show [] ++ List.filter _ (l1_data.L2_branches.map Prod.fst) = _
    rw [List.nil_append]
    apply List.filter_eq_self.mpr
    intro k hk
    show (!(validate_l3_leaves _ l1_key k).is_mece) = true
    rw [hInit k hk]
    rfl
  have hinit_entries := l3InitScan_entries l1_key ts
    (l1_data.L2_branches.map Prod.fst)
    { l3_leaves := initGen,
      temp_tree := buildTempTreeL3 l1_key l1_data initGen,
      l2_results := [],
      attempts := [],
      memory := { failures := [] },
      failed_l2_keys := [],
      oracle_calls := l1_data.L2_branches.map fun p => (p.1, 1) } hnd
  have hinit_calls : (l3LoopInit l1_key l1_data initGen ts).oracle_calls =
      l1_data.L2_branches.map fun p => (p.1, 1) :=
    l3InitScan_calls l1_key ts (l1_data.L2_branches.map Prod.fst) _
  have hloop := l3Loop_AF l1_key regen ts M (l1_data.L2_branches.map Prod.fst)
    hnd hAF (M - 1) 2 (l3LoopInit l1_key l1_data initGen ts) (by omega)
    (by omega) hinit_failed
    (by
      rw [hinit_temp]
      exact buildTempTreeL3_mem l1_key l1_data initGen)
    (by
      intro k hk
      constructor
      · exact (hinit_entries.2 k hk).2
      · rw [hinit_calls]
        exact initCalls_mem l1_data.L2_branches k hk)
  obtain ⟨hf, hac⟩ := hloop
  refine ⟨hf, hac, ?_⟩
  show (l3RepairLoop l1_key regen ts M 2
    (l3LoopInit l1_key l1_data initGen ts)).failed_l2_keys.isEmpty = _
  rw [hf]

/-- Helper: for any oracle, every scope of the L3 batch generator ends with
a passing stored verdict or an attempt counter equal to the budget. -/
theorem l3Batch_general_full (l1_key : String) (l1_data : L1Tpl)
    (initGen : List (String × List Leaf)) (regen : String → String → List Leaf)
    (ts : String) (M : Nat)
    (hnd : (l1_data.L2_branches.map Prod.fst).Nodup) (hM : 1 ≤ M) :
    ∀ k ∈ l1_data.L2_branches.map Prod.fst, ∃ v,
      dictGet
        (l3BatchFinalState l1_key l1_data initGen regen ts M).l2_results k =
        some v ∧
      (v.is_mece = true ∨
       dictGet (l3BatchFinalState l1_key l1_data initGen regen ts M).attempts
         k = some M) := by
  have hinit_failed : (l3LoopInit l1_key l1_data initGen ts).failed_l2_keys =
      [] ++ (l1_data.L2_branches.map Prod.fst).filter
        (fun k => !(validate_l3_leaves (buildTempTreeL3 l1_key l1_data initGen)
          l1_key k).is_mece) := by
    unfold l3LoopInit
    rw [l3InitScan_failed]
  have hinit_entries := l3InitScan_entries l1_key ts
    (l1_data.L2_branches.map Prod.fst)
    { l3_leaves := initGen,
      temp_tree := buildTempTreeL3 l1_key l1_data initGen,
      l2_results := [],
      attempts := [],
      memory := { failures := [] },
      failed_l2_keys := [],
      oracle_calls := l1_data.L2_branches.map fun p => (p.1, 1) } hnd
  apply l3Loop_general l1_key regen ts M (l1_data.L2_branches.map Prod.fst)
    (M - 1) 2 (l3LoopInit l1_key l1_data initGen ts) (by omega) (by omega)
  · rw [hinit_failed, List.nil_append]
    exact hnd.filter _
  · intro k hk
    refine ⟨validate_l3_leaves (buildTempTreeL3 l1_key l1_data initGen) l1_key
      k, ?_, ?_⟩
    · exact (hinit_entries.2 k hk).1
    · by_cases hm : (validate_l3_leaves (buildTempTreeL3 l1_key l1_data initGen)
          l1_key k).is_mece
      · exact Or.inl hm
      · refine Or.inr ⟨?_, ?_⟩
        · rw [hinit_failed, List.nil_append]
          apply List.mem_filter.mpr
          exact ⟨hk, by simp [hm]⟩
        · exact (hinit_entries.2 k hk).2

/-- C2: with an oracle whose content always fails validation, both
validation-wrapped batched generators terminate (they are total functions)
having performed exactly `max_attempts` generation attempts per scope (the
batched initial call plus `max_attempts - 1` targeted regenerations),
record every scope's final attempt count as `max_attempts`, report
`all_passed = false`, and — for any oracle — a scope's processing ends only
with a passing stored verdict or an attempt counter equal to
`max_attempts`. -/
theorem bounded_attempts_and_exhaustion :
    (∀ (fw : List (String × FWNode))
       (initGen : List (String × List (String × L2Node)))
       (regen : String → String → List (String × L2Node)) (ts : String)
       (M : Nat),
      (fw.map Prod.fst).Nodup → 1 ≤ M →
      (∀ k ∈ fw.map Prod.fst,
        (validate_l2_branches (buildTempTreeL2 fw initGen) k).is_mece = false) →
      (∀ k fb, (l2BranchesVerdict k (regen k fb)).is_mece = false) →
      (l2BatchFinalState fw initGen regen ts M).failed_l1_keys =
        fw.map Prod.fst ∧
      (∀ k ∈ fw.map Prod.fst,
        dictGet (l2BatchFinalState fw initGen regen ts M).attempts k =
          some M ∧
        dictGet (l2BatchFinalState fw initGen regen ts M).oracle_calls k =
          some M) ∧
      (fw ≠ [] →
        (generate_entire_tree_l2_branches_batch_with_validation fw initGen
          regen ts M).2.all_passed = false)) ∧
    (∀ (fw : List (String × FWNode))
       (initGen : List (String × List (String × L2Node)))
       (regen : String → String → List (String × L2Node)) (ts : String)
       (M : Nat),
      (fw.map Prod.fst).Nodup → 1 ≤ M →
      ∀ k ∈ fw.map Prod.fst, ∃ v,
        dictGet (l2BatchFinalState fw initGen regen ts M).l1_results k =
          some v ∧
        (v.is_mece = true ∨
         dictGet (l2BatchFinalState fw initGen regen ts M).attempts k =
           some M)) ∧
    (∀ (l1_key : String) (l1_data : L1Tpl)
       (initGen : List (String × List Leaf))
       (regen : String → String → List Leaf) (ts : String) (M : Nat),
      (l1_data.L2_branches.map Prod.fst).Nodup → 1 ≤ M →
      (∀ k ∈ l1_data.L2_branches.map Prod.fst,
        (validate_l3_leaves (buildTempTreeL3 l1_key l1_data initGen) l1_key
          k).is_mece = false) →
      (∀ k fb,
        (l3LeavesVerdict l1_key k (buildL3 (regen k fb))).is_mece = false) →
      (l3BatchFinalState l1_key l1_data initGen regen ts M).failed_l2_keys =
        l1_data.L2_branches.map Prod.fst ∧
      (∀ k ∈ l1_data.L2_branches.map Prod.fst,
        dictGet (l3BatchFinalState l1_key l1_data initGen regen ts M).attempts
          k = some M ∧
        dictGet
          (l3BatchFinalState l1_key l1_data initGen regen ts M).oracle_calls
          k = some M) ∧
      (l1_data.L2_branches ≠ [] →
        (generate_l1_category_batch_with_validation l1_key l1_data initGen
          regen ts M).2.all_passed = false)) ∧
    (∀ (l1_key : String) (l1_data : L1Tpl)
       (initGen : List (String × List Leaf))
       (regen : String → String → List Leaf) (ts : String) (M : Nat),
      (l1_data.L2_branches.map Prod.fst).Nodup → 1 ≤ M →
      ∀ k ∈ l1_data.L2_branches.map Prod.fst, ∃ v,
        dictGet (l3BatchFinalState l1_key l1_data initGen regen ts M).l2_results
          k = some v ∧
        (v.is_mece = true ∨
         dictGet (l3BatchFinalState l1_key l1_data initGen regen ts M).attempts
           k = some M)) := by
  refine ⟨?_, ?_, ?_, ?_⟩
  · intro fw initGen regen ts M hnd hM hInit hAF
    obtain ⟨h1, h2, h3⟩ := l2Batch_AF_full fw initGen regen ts M hnd hM hInit hAF
    refine ⟨h1, h2, ?_⟩
    intro hfw
    rw [h3]
    cases fw with
    | nil => exact absurd rfl hfw
    | cons p rest => rfl
  · intro fw initGen regen ts M hnd hM
    exact l2Batch_general_full fw initGen regen ts M hnd hM
  · intro l1_key l1_data initGen regen ts M hnd hM hInit hAF
    obtain ⟨h1, h2, h3⟩ :=
      l3Batch_AF_full l1_key l1_data initGen regen ts M hnd hM hInit hAF
    refine ⟨h1, h2, ?_⟩
    intro hfw
    rw [h3]
    cases hb : l1_data.L2_branches with
    | nil => exact absurd hb hfw
    | cons p rest => rfl
  · intro l1_key l1_data initGen regen ts M hnd hM
    exact l3Batch_general_full l1_key l1_data initGen regen ts M hnd hM

/-- Witness for C2: both generators, run with the always-failing stubs and
the default budget of 3, stop with the scope still failing, an attempt
count and generation count of exactly 3, and `all_passed = false`. -/
theorem bounded_attempts_and_exhaustion_witness :
    (l2BatchFinalState fwWitness l2InitGenWitness l2RegenWitness "" 3).failed_l1_keys =
      ["L1_A"] ∧
    dictGet (l2BatchFinalState fwWitness l2InitGenWitness l2RegenWitness ""
      3).attempts "L1_A" = some 3 ∧
    dictGet (l2BatchFinalState fwWitness l2InitGenWitness l2RegenWitness ""
      3).oracle_calls "L1_A" = some 3 ∧
    (generate_entire_tree_l2_branches_batch_with_validation fwWitness
      l2InitGenWitness l2RegenWitness "" 3).2.all_passed = false ∧
    (l3BatchFinalState "L1_T" l1TplWitness l3InitGenWitness l3RegenWitness ""
      3).failed_l2_keys = ["B1"] ∧
    dictGet (l3BatchFinalState "L1_T" l1TplWitness l3InitGenWitness
      l3RegenWitness "" 3).attempts "B1" = some 3 ∧
    dictGet (l3BatchFinalState "L1_T" l1TplWitness l3InitGenWitness
      l3RegenWitness "" 3).oracle_calls "B1" = some 3 ∧
    (generate_l1_category_batch_with_validation "L1_T" l1TplWitness
      l3InitGenWitness l3RegenWitness "" 3).2.all_passed = false := by
  obtain ⟨hL2AF, -, hL3AF, -⟩ := bounded_attempts_and_exhaustion
  obtain ⟨h1, h2, h3⟩ := hL2AF fwWitness l2InitGenWitness l2RegenWitness "" 3
    (by decide) (by decide) (by decide) (fun k fb => rfl)
  obtain ⟨g1, g2, g3⟩ := hL3AF "L1_T" l1TplWitness l3InitGenWitness
    l3RegenWitness "" 3 (by decide) (by decide) (by decide) (fun k fb => rfl)
  exact ⟨h1, (h2 "L1_A" (by decide)).1, (h2 "L1_A" (by decide)).2,
         h3 (by decide), g1, (g2 "B1" (by decide)).1, (g2 "B1" (by decide)).2,
         g3 (by decide)⟩

/-- Witness for C3: repairing the failing scope "B" leaves the entries of
the non-failing scope "A" untouched in both loops. -/
theorem repair_round_scope_isolation_witness :
    (dictGet (l2RepairRound l2RegenWitness 2 "" l2StateWitness).l2_branches
        "A" = dictGet l2StateWitness.l2_branches "A" ∧
      dictGet (l2RepairRound l2RegenWitness 2 "" l2StateWitness).temp_tree
        "A" = dictGet l2StateWitness.temp_tree "A") ∧
    (dictGet (l3RepairRound "T" l3RegenWitness 2 "" l3StateWitness).l3_leaves
        "A" = dictGet l3StateWitness.l3_leaves "A" ∧
      ((dictGet (l3RepairRound "T" l3RegenWitness 2 ""
          l3StateWitness).temp_tree "T").map fun n => dictGet n.L2 "A") =
        ((dictGet l3StateWitness.temp_tree "T").map
          fun n => dictGet n.L2 "A")) := by
  obtain ⟨hL2, hL3⟩ := repair_round_scope_isolation
  exact ⟨hL2 l2RegenWitness 2 "" l2StateWitness "A" (by decide),
         hL3 "T" l3RegenWitness 2 "" l3StateWitness "A" (by decide)⟩
